import Mathlib

/-!
Verification of the classification-draft lifecycle engine of
`telegram-chat-organizer` (`src/organizer/classification.py`).

The first part of this file is a shallow embedding of the module: a JSON
value type modelling the arbitrary Python values flowing out of the AI
client, models of the Python primitives the module uses (`str`, `int`,
`str.strip`, `str.lower`, f-string rendering of integers), and direct
translations of the module's functions (`normalize_groups_data`,
`merge_categorization_results`, `validate_reference_integrity`,
`compute_unassigned_chats`, `add_chat_assignment`, the CSV export/rebuild
pair).  The second part proves the specified properties.
-/

namespace Organizer

/-- JSON-like values, the shape of data produced by `json.loads` and passed
around by the Python module.  Numbers are modelled as integers: the module
only ever coerces them with `int(...)` and the claims under study do not
involve float payloads. -/
inductive Json where
  | null : Json
  | bool (b : Bool) : Json
  | num (n : Int) : Json
  | str (s : String) : Json
  | arr (items : List Json) : Json
  | obj (fields : List (String × Json)) : Json

/-- Decimal rendering of a natural number, exactly as Python's `str` does
(no sign, no leading zeros, `"0"` for zero). -/
def pyNatStr (n : Nat) : String :=
  if n = 0 then "0" else ⟨((Nat.digits 10 n).reverse.map Nat.digitChar)⟩

/-- Python's `str` on an `int`: decimal digits with a leading `-` for
negative values. -/
def pyIntStr (i : Int) : String :=
  if i < 0 then "-" ++ pyNatStr i.natAbs else pyNatStr i.natAbs

/-- Python's `str.strip()`: remove leading and trailing whitespace. -/
def pyStrip (s : String) : String :=
  ⟨List.dropWhile Char.isWhitespace (List.rdropWhile Char.isWhitespace s.data)⟩

/-- Python's `str.lower()` (ASCII case folding suffices for the strings the
module compares after lowering). -/
def pyLower (s : String) : String :=
  ⟨s.data.map Char.toLower⟩

/-- `_truncate` from `classification.py`: empty text stays empty, text not
longer than `maxLen` is returned unchanged, longer text is cut to its first
`maxLen` characters with `"..."` appended. -/
def pyTruncate (text : String) (maxLen : Nat) : String :=
  if text = "" then ""
  else if text.length ≤ maxLen then text
  else (⟨text.data.take maxLen⟩ : String) ++ "..."

/-- The digits of a nonempty all-digit character list, folded to a number;
`none` when the list is empty or contains a non-digit.  Together with
`parsePyInt` this models Python's `int(str)` conversion (sign handling in
`parsePyInt`; numeric-literal underscores are not modelled, no string the
module feeds back into `int` contains them). -/
def parseDigits (l : List Char) : Option Nat :=
  if l = [] then none
  else if l.all Char.isDigit then some (l.foldl (fun a c => a * 10 + (c.toNat - 48)) 0)
  else none

/-- Python's `int(s)` on a stripped string: optional sign followed by
digits. -/
def parsePyInt (s : String) : Option Int :=
  match s.data with
  | [] => none
  | c :: rest =>
    if c = '-' then (parseDigits rest).map (fun n : Nat => -(n : Int))
    else if c = '+' then (parseDigits rest).map (fun n : Nat => (n : Int))
    else (parseDigits (c :: rest)).map (fun n : Nat => (n : Int))

/-- Python's `str()` conversion as applied by `normalize_groups_data`.
Primitive values are rendered exactly as Python renders them.  For container
values only the fact that *some* string is produced is ever relevant to the
properties in this file (such strings are only truncated or length-bounded,
never inspected), so their rendering is abbreviated instead of reproducing
Python's recursive `repr`. -/
def pyStr : Json → String
  | .null => "None"
  | .bool b => if b then "True" else "False"
  | .num n => pyIntStr n
  | .str s => s
  | .arr _ => "[...]"
  | .obj _ => "\x7b...\x7d"

/-- Python's `dict.get(key)` on a JSON object.  Python dictionaries hold each
key once; for objects decoded from JSON text with a repeated key the last
binding wins, which the reversed search reproduces. -/
def pyGet (fields : List (String × Json)) (key : String) : Option Json :=
  (fields.reverse.find? (fun kv => kv.1 == key)).map (fun kv => kv.2)

/-- Python's `dict.get(key, default)`. -/
def pyGetD (fields : List (String × Json)) (key : String) (dflt : Json) : Json :=
  (pyGet fields key).getD dflt

/-- Python's `int(x)` for the JSON values reaching the `int(...)` coercions of
the module, with `ValueError`/`TypeError` mapped to `none` (the module
catches exactly those). -/
def pyToInt : Json → Option Int
  | .num n => some n
  | .bool b => some (if b then 1 else 0)
  | .str s => parsePyInt (pyStrip s)
  | _ => none

/-- One chat entry of the canonical draft shape, as `normalize_groups_data`
builds it: `{"chat_id": cid, "type": ty, "reason": rs}`. -/
def mkChatObj (cid : Int) (ty rs : String) : Json :=
  .obj [("chat_id", .num cid), ("type", .str ty), ("reason", .str rs)]

/-- One folder entry of the canonical draft shape. -/
def mkFolderObj (fid : Int) (title : String) (chats : List Json) : Json :=
  .obj [("folder_id", .num fid), ("folder_title", .str title), ("chats", .arr chats)]

/-- The inner chat loop of `normalize_groups_data`: entries that are not
objects are dropped, `chat_id` is coerced with `int(...)` and entries where
the coercion fails are dropped, a `chat_id` already seen within the folder is
dropped (first occurrence wins), `type` defaults to `"UNKNOWN"` and `reason`
is truncated by `_truncate(…, 200)`. -/
def normChats : List Json → Finset Int → List Json
  | [], _ => []
  | item :: rest, seen =>
    match item with
    | .obj fields =>
      match pyToInt (pyGetD fields "chat_id" .null) with
      | some cid =>
        if cid ∈ seen then normChats rest seen
        else
          mkChatObj cid (pyStr (pyGetD fields "type" (.str "UNKNOWN")))
              (pyTruncate (pyStr (pyGetD fields "reason" (.str ""))) 200)
            :: normChats rest (insert cid seen)
      | none => normChats rest seen
    | _ => normChats rest seen

/-- The per-folder body of `normalize_groups_data`: non-object entries are
dropped, `folder_id` must coerce with `int(...)`, `folder_title` is
stringified and stripped, and a non-list `chats` value drops the whole
folder entry. -/
def normFolder : Json → Option Json
  | .obj fields =>
    match pyToInt (pyGetD fields "folder_id" .null) with
    | some fid =>
      match pyGetD fields "chats" (.arr []) with
      | .arr chatItems =>
        some (mkFolderObj fid (pyStrip (pyStr (pyGetD fields "folder_title" (.str ""))))
          (normChats chatItems ∅))
      | _ => none
    | none => none
  | _ => none

/-- `normalize_groups_data` from `classification.py`: raises (models as
`Except.error`) when the top-level value is not an object or its
`categorized` value is not a list, and otherwise rebuilds the draft from the
entries that survive the lenient per-entry checks. -/
def normalize_groups_data (data : Json) : Except String Json :=
  match data with
  | .obj fields =>
    match pyGetD fields "categorized" .null with
    | .arr items => .ok (.obj [("categorized", .arr (items.filterMap normFolder))])
    | _ => .error "分类结果缺少 categorized 数组"
  | _ => .error "分类结果必须是 JSON 对象"

/-- A JSON value of valid chat-assignment shape: an object carrying exactly
an integer `chat_id`, a string `type` and a string `reason`. -/
def isWFChat : Json → Bool
  | .obj [("chat_id", .num _), ("type", .str _), ("reason", .str _)] => true
  | _ => false

/-- A JSON value of valid folder-assignment shape. -/
def isWFFolder : Json → Bool
  | .obj [("folder_id", .num _), ("folder_title", .str _), ("chats", .arr cs)] =>
    cs.all isWFChat
  | _ => false

/-- A JSON value of well-formed draft shape: an object holding a
`categorized` array of valid folder entries. -/
def isWFDraft : Json → Bool
  | .obj [("categorized", .arr fs)] => fs.all isWFFolder
  | _ => false

/-- Observation: the `reason` string of a chat entry, when it is present with
string shape. -/
def chatReasons : Json → List String
  | .obj fields =>
    match pyGet fields "reason" with
    | some (.str s) => [s]
    | _ => []
  | _ => []

/-- Observation: the `reason` strings of one folder entry of a draft. -/
def folderReasons : Json → List String
  | .obj fields =>
    match pyGet fields "chats" with
    | some (.arr cs) => cs.flatMap chatReasons
    | _ => []
  | _ => []

/-- Observation: every `reason` string reachable in a JSON draft. -/
def draftReasons : Json → List String
  | .obj fields =>
    match pyGet fields "categorized" with
    | some (.arr items) => items.flatMap folderReasons
    | _ => []
  | _ => []

/-! ### The typed draft model

Downstream of the normalizer every draft handled by the module has the
canonical shape, so the remaining operations are embedded over typed
records mirroring the dictionaries they manipulate. -/

/-- `ChatAssignment = {chat_id, type, reason}` of the draft data model. -/
structure ChatAssignment where
  chat_id : Int
  type : String
  reason : String
deriving DecidableEq

/-- `FolderAssignment = {folder_id, folder_title, chats}` of the draft data
model. -/
structure FolderAssignment where
  folder_id : Int
  folder_title : String
  chats : List ChatAssignment
deriving DecidableEq

/-- A draft: `{"categorized": [...]}`. -/
structure Draft where
  categorized : List FolderAssignment
deriving DecidableEq

/-- The chat snapshot entries, restricted to the fields the functions under
study read. -/
structure Chat where
  chat_id : Int
  title : String
  type : String
  username : String
deriving DecidableEq

/-- A Telegram folder as listed by the external collaborator. -/
structure Folder where
  id : Int
  title : String
deriving DecidableEq

/-- All `(folder_id, chat assignment)` pairs of a bucket list, in processing
order. -/
def pairsFA (fs : List FolderAssignment) : List (Int × ChatAssignment) :=
  fs.flatMap (fun f => f.chats.map (fun c => (f.folder_id, c)))

/-- Every `chat_id` occurrence in a bucket list, in processing order. -/
def chatIdsFA (fs : List FolderAssignment) : List Int :=
  fs.flatMap (fun f => f.chats.map (fun c => c.chat_id))

/-- Every `chat_id` occurrence of a draft, in processing order. -/
def allChatIds (d : Draft) : List Int :=
  chatIdsFA d.categorized

/-- The `(folder_id, chat_id)` pairs of a bucket list. -/
def idPairsFA (fs : List FolderAssignment) : List (Int × Int) :=
  fs.flatMap (fun f => f.chats.map (fun c => (f.folder_id, c.chat_id)))

/-- The `(folder_id, chat_id)` pairs of a draft. -/
def draftIdPairs (d : Draft) : List (Int × Int) :=
  idPairsFA d.categorized

/-- Keep the first occurrence of each key, skipping every later one; `seen`
holds the keys already consumed.  This is the specification-side "first
occurrence in processing order wins" characterization the merge and rebuild
routines are compared against. -/
def dedupFirstAux (key : α → Int) (seen : Finset Int) : List α → List α
  | [] => []
  | x :: xs =>
    if key x ∈ seen then dedupFirstAux key seen xs
    else x :: dedupFirstAux key (insert (key x) seen) xs

/-- The dedup key of a merge-processing pair: the chat id. -/
def pairKey (q : Int × ChatAssignment) : Int :=
  q.2.chat_id

/-! ### `merge_categorization_results` -/

/-- The mutable state of `merge_categorization_results`: the ordered output
buckets (`merged_folders`, an `OrderedDict` keyed by `folder_id`) and the
global set of already assigned chat ids (`assigned_global`). -/
structure MergeState where
  folders : List FolderAssignment
  assigned : Finset Int

/-- Append a chat entry to the bucket keyed `fid`; bucket ids are unique by
construction, matching the `OrderedDict` keying. -/
def addChatToBucket : List FolderAssignment → Int → ChatAssignment → List FolderAssignment
  | [], _, _ => []
  | f :: fs, fid, c =>
    if f.folder_id = fid then ⟨f.folder_id, f.folder_title, f.chats ++ [c]⟩ :: fs
    else f :: addChatToBucket fs fid c

/-- The inner chat loop of the merger: a chat id already in the global set is
silently skipped, otherwise it is recorded and its entry appended to the
current folder's bucket. -/
def mergeChatStep (fid : Int) (st : MergeState) (c : ChatAssignment) : MergeState :=
  if c.chat_id ∈ st.assigned then st
  else ⟨addChatToBucket st.folders fid c, insert c.chat_id st.assigned⟩

/-- The bucket title: the batch-supplied title when nonempty (Python's
`or`-fallback on the falsy empty string), else the lookup, else
`"Unknown"`. -/
def mergeTitle (fi : FolderAssignment) (lookup : Int → Option String) : String :=
  if fi.folder_title ≠ "" then fi.folder_title
  else (lookup fi.folder_id).getD "Unknown"

/-- The per-folder-item body of the merger: create the output bucket on first
sight of its `folder_id`, then feed the item's chats through the global
dedup. -/
def mergeFolderStep (lookup : Int → Option String) (st : MergeState)
    (fi : FolderAssignment) : MergeState :=
  let st1 : MergeState :=
    if st.folders.any (fun f => f.folder_id = fi.folder_id) then st
    else ⟨st.folders ++ [⟨fi.folder_id, mergeTitle fi lookup, []⟩], st.assigned⟩
  fi.chats.foldl (mergeChatStep fi.folder_id) st1

/-- `merge_categorization_results` from `classification.py`.  The two nested
`for` loops over `results` and their `categorized` entries are the fold over
the flattened folder-item sequence. -/
def merge_categorization_results (results : List Draft)
    (lookup : Int → Option String) : Draft :=
  ⟨((results.flatMap (fun r => r.categorized)).foldl (mergeFolderStep lookup)
    ⟨[], ∅⟩).folders⟩

/-! ### `validate_reference_integrity` -/

/-- The unknown-folder message `f"categorized[{i}].folder_id={folder_id} 不存在"`. -/
def vriFolderMsg (i : Nat) (fid : Int) : String :=
  "categorized[" ++ pyNatStr i ++ "].folder_id=" ++ pyIntStr fid ++ " 不存在"

/-- The unknown-chat message `f"categorized[{i}].chats[{j}].chat_id={chat_id} 不存在"`. -/
def vriChatMsg (i j : Nat) (cid : Int) : String :=
  "categorized[" ++ pyNatStr i ++ "].chats[" ++ pyNatStr j ++ "].chat_id="
    ++ pyIntStr cid ++ " 不存在"

/-- The duplicate-chat message `f"chat_id={chat_id} 在多个文件夹重复出现"`. -/
def vriDupMsg (cid : Int) : String :=
  "chat_id=" ++ pyIntStr cid ++ " 在多个文件夹重复出现"

/-- The inner chat loop of `validate_reference_integrity`: per occurrence an
unknown-chat message and then a duplicate message when the id was already
seen anywhere before; the id is added to the seen set unconditionally.
Returns the collected messages and the final seen set. -/
def vriChats (validC : Finset Int) (i : Nat) :
    List ChatAssignment → Nat → Finset Int → List String × Finset Int
  | [], _, seen => ([], seen)
  | c :: cs, j, seen =>
    let e1 : List String := if c.chat_id ∈ validC then [] else [vriChatMsg i j c.chat_id]
    let e2 : List String := if c.chat_id ∈ seen then [vriDupMsg c.chat_id] else []
    let r := vriChats validC i cs (j + 1) (insert c.chat_id seen)
    (e1 ++ e2 ++ r.1, r.2)

/-- The outer folder loop of `validate_reference_integrity`. -/
def vriFolders (validF validC : Finset Int) :
    List FolderAssignment → Nat → Finset Int → List String
  | [], _, _ => []
  | f :: fs, i, seen =>
    let e1 : List String := if f.folder_id ∈ validF then [] else [vriFolderMsg i f.folder_id]
    let r := vriChats validC i f.chats 0 seen
    e1 ++ r.1 ++ vriFolders validF validC fs (i + 1) r.2

/-- `validate_reference_integrity` from `classification.py`: aggregate every
unknown-folder, unknown-chat and duplicate-chat violation of a draft. -/
def validate_reference_integrity (data : Draft) (valid_folder_ids valid_chat_ids : Finset Int) :
    List String :=
  vriFolders valid_folder_ids valid_chat_ids data.categorized 0 ∅

/-! ### `compute_unassigned_chats`, `add_chat_assignment` -/

/-- `compute_unassigned_chats` from `classification.py`: collect the assigned
ids into a set, then keep the source chats not in it, in source order. -/
def compute_unassigned_chats (chats : List Chat) (categorized_data : Draft) : List Chat :=
  let assigned : Finset Int :=
    categorized_data.categorized.foldl
      (fun s f => f.chats.foldl (fun s2 c => insert c.chat_id s2) s) ∅
  chats.filter (fun c => c.chat_id ∉ assigned)

/-- Append an entry to the first bucket whose `folder_id` matches, or append
a fresh bucket (with the supplied title) at the end when none does — the
find-then-append-or-create body shared by `add_chat_assignment` and the CSV
rebuild. -/
def appendChat : List FolderAssignment → Int → String → ChatAssignment → List FolderAssignment
  | [], fid, title, c => [⟨fid, title, [c]⟩]
  | f :: fs, fid, title, c =>
    if f.folder_id = fid then ⟨f.folder_id, f.folder_title, f.chats ++ [c]⟩ :: fs
    else f :: appendChat fs fid title c

/-- `add_chat_assignment` from `classification.py` (functional rendering of
the in-place mutation): append `{chat_id, type, reason}` to the targeted
folder bucket, creating it at the end of `categorized` when absent. -/
def add_chat_assignment (categorized_data : Draft) (folder_id : Int) (folder_title : String)
    (chat : Chat) (reason : String) : Draft :=
  ⟨appendChat categorized_data.categorized folder_id folder_title
    ⟨chat.chat_id, chat.type, reason⟩⟩

/-! ### The CSV bridge

The export/rebuild pair is modelled over typed rows: the file I/O, the
UTF-8-BOM encoding and the header line are transport concerns (the header
is consumed by `csv.DictReader`; its required-column check cannot fail on
typed rows), while each data row is the 8-tuple of cell strings the
`csv` module writes and reads back. -/

/-- One review CSV data row, cells as strings exactly as the `csv` module
round-trips them. -/
structure ReviewRow where
  status : String
  folder_id : String
  folder_title : String
  chat_id : String
  chat_title : String
  chat_type : String
  username : String
  reason : String
deriving DecidableEq

/-- The chat lookup `{int(chat["chat_id"]): chat for chat in chats_for_ai}`:
a later entry with the same id overwrites an earlier one. -/
def chatLookup (chats : List Chat) (cid : Int) : Option Chat :=
  chats.reverse.find? (fun c => c.chat_id == cid)

/-- The folder lookup `{int(folder["id"]): folder["title"] for folder in folders}`. -/
def folderLookup (folders : List Folder) (fid : Int) : Option String :=
  ((folders.reverse.find? (fun f => f.id == fid)).map (fun f => f.title))

/-- One `status=categorized` row of `export_classification_review_csv`:
chat metadata joined from the snapshot lookup (blank when the id is unknown
there), the row's `chat_type` from the draft entry (which always carries a
type, so the snapshot fallback of the source line never fires). -/
def exportRow (lookup : Int → Option Chat) (f : FolderAssignment)
    (c : ChatAssignment) : ReviewRow :=
  { status := "categorized"
    folder_id := pyIntStr f.folder_id
    folder_title := f.folder_title
    chat_id := pyIntStr c.chat_id
    chat_title := ((lookup c.chat_id).map (fun ch => ch.title)).getD ""
    chat_type := c.type
    username := ((lookup c.chat_id).map (fun ch => ch.username)).getD ""
    reason := c.reason }

/-- The `status=categorized` rows of `export_classification_review_csv`, one
per chat assignment in draft order. -/
def exportCategorizedRows (lookup : Int → Option Chat)
    (fs : List FolderAssignment) : List ReviewRow :=
  fs.flatMap (fun f => f.chats.map (exportRow lookup f))

/-- `export_classification_review_csv` from `classification.py` as a row
list: all categorized rows, then one `status=unassigned` row per snapshot
chat whose id was not written in the first pass. -/
def export_classification_review_csv (categorized_data : Draft)
    (chats_for_ai : List Chat) : List ReviewRow :=
  let lookup := chatLookup chats_for_ai
  let catRows := exportCategorizedRows lookup categorized_data.categorized
  let assigned : Finset Int := (allChatIds categorized_data).toFinset
  catRows ++ (chats_for_ai.filter (fun c => c.chat_id ∉ assigned)).map (fun c =>
    { status := "unassigned", folder_id := "", folder_title := ""
      chat_id := pyIntStr c.chat_id, chat_title := c.title, chat_type := c.type
      username := c.username, reason := "" })

/-- One row step of `build_categorization_from_review_csv`: consume only
`status == "categorized"` rows (case-insensitively, stripped), skip rows with
non-integer ids, unknown folder or chat references, or an already consumed
`chat_id`; otherwise default the reason and type and append the entry to the
bucket keyed by `folder_id` (title taken from the folder lookup). -/
def rebuildStep (flookup : Int → Option String) (clookup : Int → Option Chat)
    (st : List FolderAssignment × Finset Int) (row : ReviewRow) :
    List FolderAssignment × Finset Int :=
  if pyLower (pyStrip row.status) ≠ "categorized" then st
  else
    match parsePyInt (pyStrip row.folder_id), parsePyInt (pyStrip row.chat_id) with
    | some fid, some cid =>
      match flookup fid, clookup cid with
      | some ftitle, some chat =>
        if cid ∈ st.2 then st
        else
          let reason := if pyStrip row.reason = "" then "CSV审核归类" else pyStrip row.reason
          let ctype := if pyStrip row.chat_type = "" then chat.type else pyStrip row.chat_type
          (appendChat st.1 fid ftitle ⟨cid, ctype, reason⟩, insert cid st.2)
      | _, _ => st
    | _, _ => st

/-- `build_categorization_from_review_csv` from `classification.py` over a
typed row list. -/
def build_categorization_from_review_csv (rows : List ReviewRow)
    (folders : List Folder) (chats_for_ai : List Chat) : Draft :=
  ⟨(rows.foldl (rebuildStep (folderLookup folders) (chatLookup chats_for_ai))
    ([], ∅)).1⟩

/-! ### Properties of the Python-primitive models -/

theorem digitChar_lt_inj : ∀ a, a < 10 → ∀ b, b < 10 →
    Nat.digitChar a = Nat.digitChar b → a = b := by decide

theorem digitChar_isDigit : ∀ d, d < 10 → (Nat.digitChar d).isDigit = true := by decide

theorem digitChar_toNat : ∀ d, d < 10 → (Nat.digitChar d).toNat - 48 = d := by decide

theorem digitChar_not_ws : ∀ d, d < 10 → (Nat.digitChar d).isWhitespace = false := by decide

theorem map_digitChar_inj : ∀ l1 l2 : List Nat, (∀ d ∈ l1, d < 10) → (∀ d ∈ l2, d < 10) →
    l1.map Nat.digitChar = l2.map Nat.digitChar → l1 = l2 := by
  intro l1
  induction l1 with
  | nil => intro l2 _ _ h; cases l2 <;> simp_all
  | cons a t ih =>
    intro l2 h1 h2 h
    cases l2 with
    | nil => simp_all
    | cons b t2 =>
      simp only [List.map_cons, List.cons.injEq] at h
      have ha : a = b := digitChar_lt_inj a (h1 a (by simp)) b (h2 b (by simp)) h.1
      have ht : t = t2 := ih t2 (fun d hd => h1 d (by simp [hd])) (fun d hd => h2 d (by simp [hd])) h.2
      simp [ha, ht]

theorem digitChar_eq_zero : ∀ d, d < 10 → Nat.digitChar d = '0' → d = 0 := by decide

/-- The rendered characters of a nonzero number. -/
theorem pyNatStr_data_of_ne_zero {k : Nat} (hk : k ≠ 0) :
    (pyNatStr k).data = (Nat.digits 10 k).reverse.map Nat.digitChar := by
  simp [pyNatStr, hk]

/-- A nonzero number never renders as `"0"`. -/
theorem pyNatStr_ne_zero_render {k : Nat} (hk : k ≠ 0) : pyNatStr k ≠ "0" := by
  intro h
  have hd := congrArg String.data h
  rw [pyNatStr_data_of_ne_zero hk] at hd
  have hd : (Nat.digits 10 k).reverse.map Nat.digitChar = ['0'] := hd
  cases hrl : (Nat.digits 10 k).reverse with
  | nil =>
    rw [hrl] at hd; simp at hd
  | cons d t =>
    rw [hrl] at hd
    simp only [List.map_cons, List.cons.injEq] at hd
    have ht : t = [] := by
      have := hd.2; cases t <;> simp_all
    have hdm : d ∈ Nat.digits 10 k := by
      have : d ∈ (Nat.digits 10 k).reverse := by rw [hrl]; simp
      exact List.mem_reverse.mp this
    have hd0 : d = 0 := digitChar_eq_zero d (Nat.digits_lt_base (by norm_num) hdm) hd.1
    have hdig : Nat.digits 10 k = [0] := by
      have := congrArg List.reverse hrl
      simpa [ht, hd0] using this
    have := Nat.ofDigits_digits 10 k
    rw [hdig] at this
    simp [Nat.ofDigits] at this
    exact hk this.symm

theorem pyNatStr_inj {n m : Nat} (h : pyNatStr n = pyNatStr m) : n = m := by
  by_cases hn : n = 0 <;> by_cases hm : m = 0
  · rw [hn, hm]
  · exact absurd h.symm (by rw [hn]; exact fun hc => pyNatStr_ne_zero_render hm (by rw [hc]; rfl))
  · exact absurd h (by rw [hm]; exact fun hc => pyNatStr_ne_zero_render hn (by rw [hc]; rfl))
  · have hd := congrArg String.data h
    rw [pyNatStr_data_of_ne_zero hn, pyNatStr_data_of_ne_zero hm] at hd
    have hmap := map_digitChar_inj (Nat.digits 10 n).reverse (Nat.digits 10 m).reverse
      (fun d hdm => Nat.digits_lt_base (by norm_num) (List.mem_reverse.mp hdm))
      (fun d hdm => Nat.digits_lt_base (by norm_num) (List.mem_reverse.mp hdm)) hd
    have hdig : Nat.digits 10 n = Nat.digits 10 m := List.reverse_injective hmap
    have h1 := Nat.ofDigits_digits 10 n
    rw [hdig, Nat.ofDigits_digits 10 m] at h1
    exact h1.symm

/-- Every character `pyNatStr` emits is a decimal digit. -/
theorem pyNatStr_all_digit (n : Nat) : ∀ c ∈ (pyNatStr n).data, c.isDigit = true := by
  by_cases hn : n = 0
  · subst hn; intro c hc; simp [pyNatStr] at hc; simp [hc]
  · rw [pyNatStr_data_of_ne_zero hn]
    intro c hc
    simp only [List.mem_map, List.mem_reverse] at hc
    obtain ⟨d, hdm, rfl⟩ := hc
    exact digitChar_isDigit d (Nat.digits_lt_base (by norm_num) hdm)

/-- `pyNatStr` never renders an empty string. -/
theorem pyNatStr_ne_empty (n : Nat) : (pyNatStr n).data ≠ [] := by
  by_cases hn : n = 0
  · subst hn; simp [pyNatStr]
  · rw [pyNatStr_data_of_ne_zero hn]
    have hdig : Nat.digits 10 n ≠ [] := Nat.digits_ne_nil_iff_ne_zero.mpr hn
    simp [hdig]

/-- The first character of `pyNatStr` is a digit. -/
theorem pyNatStr_head_digit (n : Nat) :
    ∃ c rest, (pyNatStr n).data = c :: rest ∧ c.isDigit = true := by
  cases hd : (pyNatStr n).data with
  | nil => exact absurd hd (pyNatStr_ne_empty n)
  | cons c rest =>
    refine ⟨c, rest, rfl, ?_⟩
    exact pyNatStr_all_digit n c (by rw [hd]; simp)

theorem pyIntStr_inj {i j : Int} (h : pyIntStr i = pyIntStr j) : i = j := by
  unfold pyIntStr at h
  by_cases hi : i < 0 <;> by_cases hj : j < 0 <;> simp only [hi, hj, if_pos, if_neg, if_true,
    if_false, not_false_eq_true] at h
  · -- both negative
    have := congrArg String.data h
    simp only [String.data_append] at this
    have hnat : pyNatStr i.natAbs = pyNatStr j.natAbs := by
      have hpre : ("-" : String).data ++ (pyNatStr i.natAbs).data
          = ("-" : String).data ++ (pyNatStr j.natAbs).data := this
      have hcancel := List.append_cancel_left hpre
      cases hpi : (pyNatStr i.natAbs) with
      | mk d1 => cases hpj : (pyNatStr j.natAbs) with
        | mk d2 =>
          rw [hpi, hpj] at hcancel
          simp_all
    have := pyNatStr_inj hnat
    omega
  · -- i negative, j not: "-" ++ digits = digits, impossible
    exfalso
    obtain ⟨c, rest, hdat, hdig⟩ := pyNatStr_head_digit j.natAbs
    have := congrArg String.data h
    simp only [String.data_append, hdat] at this
    have hhead : '-' = c := by
      have : '-' :: (pyNatStr i.natAbs).data = c :: rest := by
        simpa using this
      exact (List.cons.injEq _ _ _ _ ▸ this).1
    rw [← hhead] at hdig
    simp at hdig
  · -- j negative, i not
    exfalso
    obtain ⟨c, rest, hdat, hdig⟩ := pyNatStr_head_digit i.natAbs
    have := congrArg String.data h
    simp only [String.data_append, hdat] at this
    have hhead : c = '-' := by
      have : c :: rest = '-' :: (pyNatStr j.natAbs).data := by
        simpa using this
      exact (List.cons.injEq _ _ _ _ ▸ this).1
    rw [hhead] at hdig
    simp at hdig
  · -- both nonnegative
    have := pyNatStr_inj h
    omega

/-- Folding the rendered digits of `ds` (most significant first) recovers the
accumulator-weighted value. -/
theorem foldl_digits (ds : List Nat) (h : ∀ d ∈ ds, d < 10) (acc : Nat) :
    ((ds.reverse.map Nat.digitChar).foldl (fun a c => a * 10 + (c.toNat - 48)) acc)
      = acc * 10 ^ ds.length + Nat.ofDigits 10 ds := by
  induction ds generalizing acc with
  | nil => simp [Nat.ofDigits]
  | cons d t ih =>
    have hd : d < 10 := h d (by simp)
    have ht : ∀ x ∈ t, x < 10 := fun x hx => h x (by simp [hx])
    simp only [List.reverse_cons, List.map_append, List.map_cons, List.map_nil,
      List.foldl_append, List.foldl_cons, List.foldl_nil]
    rw [ih ht acc, digitChar_toNat d hd, Nat.ofDigits_cons]
    simp only [List.length_cons, pow_succ]
    ring

theorem parseDigits_pyNatStr (n : Nat) : parseDigits (pyNatStr n).data = some n := by
  by_cases hn : n = 0
  · subst hn; rfl
  · rw [pyNatStr_data_of_ne_zero hn]
    unfold parseDigits
    have hne : (Nat.digits 10 n).reverse.map Nat.digitChar ≠ [] := by
      have hdig : Nat.digits 10 n ≠ [] := Nat.digits_ne_nil_iff_ne_zero.mpr hn
      simp [hdig]
    rw [if_neg hne]
    have hall : ((Nat.digits 10 n).reverse.map Nat.digitChar).all Char.isDigit = true := by
      rw [List.all_eq_true]
      intro c hc
      simp only [List.mem_map, List.mem_reverse] at hc
      obtain ⟨d, hdm, rfl⟩ := hc
      exact digitChar_isDigit d (Nat.digits_lt_base (by norm_num) hdm)
    rw [if_pos hall]
    have hfd := foldl_digits (Nat.digits 10 n)
      (fun d hdm => Nat.digits_lt_base (by norm_num) hdm) 0
    rw [hfd, Nat.ofDigits_digits]
    simp

/-- Round trip: Python parses back exactly the integer it rendered. -/
theorem parsePyInt_pyIntStr (i : Int) : parsePyInt (pyIntStr i) = some i := by
  by_cases hi : i < 0
  · have hs : pyIntStr i = "-" ++ pyNatStr i.natAbs := by simp [pyIntStr, hi]
    have hdat : (pyIntStr i).data = '-' :: (pyNatStr i.natAbs).data := by
      rw [hs]; rfl
    simp only [parsePyInt, hdat, if_pos rfl]
    rw [parseDigits_pyNatStr]
    simp only [Option.map_some']
    have habs : -(i.natAbs : Int) = i := by omega
    rw [habs]
    simp
  · have hs : pyIntStr i = pyNatStr i.natAbs := by simp [pyIntStr, hi]
    obtain ⟨c, rest, hdat0, hdig⟩ := pyNatStr_head_digit i.natAbs
    have hdat : (pyIntStr i).data = c :: rest := by rw [hs, hdat0]
    have hc1 : ¬ (c = '-') := fun hc => by rw [hc] at hdig; simp at hdig
    have hc2 : ¬ (c = '+') := fun hc => by rw [hc] at hdig; simp at hdig
    simp only [parsePyInt, hdat, if_neg hc1, if_neg hc2]
    rw [← hdat0, parseDigits_pyNatStr]
    simp only [Option.map_some']
    have habs : ((i.natAbs : Int)) = i := by omega
    rw [habs]

/-- `str.strip` leaves a string without whitespace characters unchanged. -/
theorem pyStrip_of_no_ws {s : String} (h : ∀ c ∈ s.data, c.isWhitespace = false) :
    pyStrip s = s := by
  unfold pyStrip
  have h1 : List.rdropWhile Char.isWhitespace s.data = s.data := by
    rw [List.rdropWhile_eq_self_iff]
    intro hl
    rw [h (s.data.getLast hl) (List.getLast_mem hl)]
    simp
  rw [h1]
  have h2 : List.dropWhile Char.isWhitespace s.data = s.data := by
    rw [List.dropWhile_eq_self_iff]
    intro hl
    rw [h (s.data.get ⟨0, hl⟩) (List.get_mem s.data 0 hl)]
    simp
  rw [h2]

/-- A decimal digit character is not whitespace. -/
theorem isDigit_not_ws (c : Char) (h : c.isDigit = true) : c.isWhitespace = false := by
  by_contra hw
  simp only [Bool.not_eq_false] at hw
  have hw2 : ((c = ' ' || c = '\t' || c = '\r' || c = '\n') : Bool) = true := hw
  simp only [Bool.or_eq_true, decide_eq_true_eq] at hw2
  rcases hw2 with ((hc | hc) | hc) | hc <;> subst hc <;> exact absurd h (by decide)

/-- No character of a rendered integer is whitespace. -/
theorem pyIntStr_no_ws (i : Int) : ∀ c ∈ (pyIntStr i).data, c.isWhitespace = false := by
  intro c hc
  unfold pyIntStr at hc
  by_cases hi : i < 0
  · rw [if_pos hi] at hc
    rw [String.data_append] at hc
    rcases List.mem_append.mp hc with hm | hm
    · simp only [show ("-" : String).data = ['-'] from rfl, List.mem_singleton] at hm
      rw [hm]; rfl
    · exact isDigit_not_ws c (pyNatStr_all_digit i.natAbs c hm)
  · rw [if_neg hi] at hc
    exact isDigit_not_ws c (pyNatStr_all_digit i.natAbs c hc)

/-- `str.strip` is a no-op on rendered integers. -/
theorem pyStrip_pyIntStr (i : Int) : pyStrip (pyIntStr i) = pyIntStr i :=
  pyStrip_of_no_ws (pyIntStr_no_ws i)

/-- `str.strip()` is idempotent. -/
theorem pyStrip_idem (s : String) : pyStrip (pyStrip s) = pyStrip s := by
  unfold pyStrip
  set X := List.rdropWhile Char.isWhitespace s.data with hX
  set d := List.dropWhile Char.isWhitespace X with hd
  have hA : List.rdropWhile Char.isWhitespace d = d := by
    rw [List.rdropWhile_eq_self_iff]
    intro hl
    have hXne : X ≠ [] := by
      intro hXe
      rw [hd, hXe] at hl
      simp at hl
    have hsuf : d <:+ X := hd ▸ List.dropWhile_suffix _
    obtain ⟨u, hu⟩ := hsuf
    have hlast : d.getLast hl = X.getLast hXne := by
      have h1 := List.getLast?_eq_getLast d hl
      have h2 := List.getLast?_eq_getLast X hXne
      have h3 : X.getLast? = d.getLast? := by
        rw [← hu, List.getLast?_append_of_ne_nil u hl]
      rw [h1, h2] at h3
      exact (Option.some.injEq _ _ ▸ h3).symm
    rw [hlast]
    exact List.rdropWhile_last_not _ _ (hX ▸ hXne)
  show (⟨List.dropWhile Char.isWhitespace (List.rdropWhile Char.isWhitespace d)⟩ : String)
      = ⟨d⟩
  rw [hA, hd, List.dropWhile_idempotent]

/-- Python renders and lowers `"categorized"` to itself. -/
theorem pyStatus_categorized : pyLower (pyStrip "categorized") = "categorized" := by
  have h1 : pyStrip "categorized" = "categorized" := by
    apply pyStrip_of_no_ws
    decide
  rw [h1]
  rfl

/-- `_truncate` on the empty string. -/
theorem pyTruncate_empty (n : Nat) : pyTruncate "" n = "" := by
  unfold pyTruncate
  rw [if_pos rfl]

/-- `_truncate` returns short-enough text unchanged. -/
theorem pyTruncate_short {t : String} {n : Nat} (h1 : t.length ≤ n) : pyTruncate t n = t := by
  by_cases h0 : t = ""
  · subst h0; exact pyTruncate_empty n
  · unfold pyTruncate
    rw [if_neg h0, if_pos h1]

/-- `_truncate` on over-long text: the first `n` characters plus an ellipsis. -/
theorem pyTruncate_long {t : String} {n : Nat} (h0 : t ≠ "") (h1 : ¬ t.length ≤ n) :
    pyTruncate t n = (⟨t.data.take n⟩ : String) ++ "..." := by
  unfold pyTruncate
  rw [if_neg h0, if_neg h1]

/-- `_truncate(…, n)` never yields more than `n + 3` characters. -/
theorem pyTruncate_length (s : String) (n : Nat) : (pyTruncate s n).length ≤ n + 3 := by
  by_cases h0 : s = ""
  · subst h0
    rw [pyTruncate_empty]
    show (0 : Nat) ≤ n + 3
    omega
  · by_cases h1 : s.length ≤ n
    · rw [pyTruncate_short h1]; omega
    · rw [pyTruncate_long h0 h1]
      have hl : ((⟨s.data.take n⟩ : String) ++ "...").length = (s.data.take n).length + 3 := by
        show ((s.data.take n) ++ ("..." : String).data).length = (s.data.take n).length + 3
        rw [List.length_append]
        rfl
      rw [hl]
      have := List.length_take_le n s.data
      omega

/-- `_truncate(…, n)` is idempotent. -/
theorem pyTruncate_idem (s : String) (n : Nat) :
    pyTruncate (pyTruncate s n) n = pyTruncate s n := by
  by_cases h0 : s = ""
  · subst h0; rw [pyTruncate_empty, pyTruncate_empty]
  · by_cases h1 : s.length ≤ n
    · rw [pyTruncate_short h1, pyTruncate_short h1]
    · have hs := pyTruncate_long h0 h1
      have hlen : s.length = s.data.length := rfl
      have htk : (s.data.take n).length = n := by
        rw [List.length_take]
        omega
      have hdata : (pyTruncate s n).data = s.data.take n ++ ("..." : String).data := by
        rw [hs]
        show ((⟨s.data.take n⟩ : String) ++ "...").data = _
        rw [String.data_append]
      have hlt : (pyTruncate s n).length = n + 3 := by
        show (pyTruncate s n).data.length = n + 3
        rw [hdata, List.length_append, htk]
        rfl
      have hne : pyTruncate s n ≠ "" := by
        intro he
        rw [he] at hlt
        simp [String.length] at hlt
      have hgt : ¬ (pyTruncate s n).length ≤ n := by omega
      rw [pyTruncate_long hne hgt]
      have htake : (pyTruncate s n).data.take n = s.data.take n := by
        rw [hdata, List.take_append_of_le_length (by omega), List.take_take]
        simp
      rw [htake, ← hs]

/-! ### The reference validator: characterization lemmas -/

theorem vriDupMsg_inj {a b : Int} (h : vriDupMsg a = vriDupMsg b) : a = b := by
  unfold vriDupMsg at h
  have hd := congrArg String.data h
  simp only [String.data_append] at hd
  rw [List.append_assoc, List.append_assoc] at hd
  have h1 := List.append_cancel_left hd
  have h2 := List.append_cancel_right h1
  exact pyIntStr_inj (by cases hpa : pyIntStr a with
    | mk la => cases hpb : pyIntStr b with
      | mk lb =>
        rw [hpa, hpb] at h2
        simp_all)

theorem vriChatMsg_ne_dup (i j : Nat) (a b : Int) : vriChatMsg i j a ≠ vriDupMsg b := by
  intro h
  have hd : (vriChatMsg i j a).data[1]? = (vriDupMsg b).data[1]? := by rw [h]
  have h1 : (vriChatMsg i j a).data[1]? = some 'a' := rfl
  have h2 : (vriDupMsg b).data[1]? = some 'h' := rfl
  rw [h1, h2] at hd
  simp at hd

theorem vriFolderMsg_ne_dup (i : Nat) (a b : Int) : vriFolderMsg i a ≠ vriDupMsg b := by
  intro h
  have hd : (vriFolderMsg i a).data[1]? = (vriDupMsg b).data[1]? := by rw [h]
  have h1 : (vriFolderMsg i a).data[1]? = some 'a' := rfl
  have h2 : (vriDupMsg b).data[1]? = some 'h' := rfl
  rw [h1, h2] at hd
  simp at hd

/-- The seen set after the chat loop: the initial set plus every id of the
processed chats. -/
theorem vriChats_seen (validC : Finset Int) (i : Nat) :
    ∀ (cs : List ChatAssignment) (j : Nat) (seen : Finset Int),
    (vriChats validC i cs j seen).2 = seen ∪ (cs.map (fun c => c.chat_id)).toFinset := by
  intro cs
  induction cs with
  | nil => intro j seen; simp [vriChats]
  | cons c cs ih =>
    intro j seen
    show (vriChats validC i cs (j + 1) (insert c.chat_id seen)).2 = _
    rw [ih]
    ext a
    simp only [Finset.mem_union, Finset.mem_insert, List.mem_toFinset, List.map_cons,
      List.mem_cons, List.mem_map]
    tauto

/-- The chat loop reports nothing exactly when every id is known, the ids are
pairwise distinct and none was seen before. -/
theorem vriChats_nil_iff (validC : Finset Int) (i : Nat) :
    ∀ (cs : List ChatAssignment) (j : Nat) (seen : Finset Int),
    (vriChats validC i cs j seen).1 = [] ↔
      (∀ c ∈ cs, c.chat_id ∈ validC) ∧ (cs.map (fun c => c.chat_id)).Nodup ∧
        ∀ a ∈ cs.map (fun c => c.chat_id), a ∉ seen := by
  intro cs
  induction cs with
  | nil => intro j seen; simp [vriChats]
  | cons c cs ih =>
    intro j seen
    show (_ ++ _ ++ (vriChats validC i cs (j + 1) (insert c.chat_id seen)).1) = [] ↔ _
    rw [List.append_eq_nil, List.append_eq_nil, ih]
    constructor
    · rintro ⟨⟨he1, he2⟩, hin, hnd, hns⟩
      have hc1 : c.chat_id ∈ validC := by
        by_contra hx
        simp only [if_neg hx] at he1
        exact absurd he1 (by simp)
      have hc2 : c.chat_id ∉ seen := by
        by_contra hx
        simp only [if_pos hx] at he2
        exact absurd he2 (by simp)
      refine ⟨?_, ?_, ?_⟩
      · intro x hx
        rcases List.mem_cons.mp hx with h | h
        · rw [h]; exact hc1
        · exact hin x h
      · rw [List.map_cons, List.nodup_cons]
        refine ⟨?_, hnd⟩
        intro hmem
        exact hns c.chat_id hmem (Finset.mem_insert_self _ _)
      · intro a ha
        rw [List.map_cons, List.mem_cons] at ha
        rcases ha with h | h
        · rw [h]; exact hc2
        · intro hsn
          exact hns a h (Finset.mem_insert_of_mem hsn)
    · rintro ⟨hin, hnd, hns⟩
      have hc1 : c.chat_id ∈ validC := hin c (by simp)
      have hc2 : c.chat_id ∉ seen := hns c.chat_id (by simp)
      rw [List.map_cons, List.nodup_cons] at hnd
      refine ⟨⟨by simp [hc1], by simp [hc2]⟩, fun x hx => hin x (by simp [hx]), hnd.2, ?_⟩
      intro a ha hsn
      rcases Finset.mem_insert.mp hsn with h | h
      · rw [h] at ha
        exact hnd.1 ha
      · exact hns a (by simp [ha]) h

/-- Counting what the chat loop reports: one message per unknown id plus one
per occurrence whose id was already seen (additively, reported messages plus
newly seen distinct ids add up to unknown-count plus occurrence-count). -/
theorem vriChats_len (validC : Finset Int) (i : Nat) :
    ∀ (cs : List ChatAssignment) (j : Nat) (seen : Finset Int),
    (vriChats validC i cs j seen).1.length
        + (((cs.map (fun c => c.chat_id)).toFinset \ seen)).card
      = cs.countP (fun c => decide (c.chat_id ∉ validC)) + cs.length := by
  intro cs
  induction cs with
  | nil => intro j seen; simp [vriChats]
  | cons c cs ih =>
    intro j seen
    show ((if c.chat_id ∈ validC then ([] : List String) else [vriChatMsg i j c.chat_id]) ++
        (if c.chat_id ∈ seen then [vriDupMsg c.chat_id] else []) ++
        (vriChats validC i cs (j + 1) (insert c.chat_id seen)).1).length + _ = _
    have hIH := ih (j + 1) (insert c.chat_id seen)
    rw [List.length_append, List.length_append]
    rw [List.countP_cons]
    have hA : ((c :: cs).map (fun c => c.chat_id)).toFinset
        = insert c.chat_id (cs.map (fun c => c.chat_id)).toFinset := by
      simp
    rw [hA]
    set A := (cs.map (fun c => c.chat_id)).toFinset with hAdef
    have he1 : (if c.chat_id ∈ validC then ([] : List String)
        else [vriChatMsg i j c.chat_id]).length
        = if (decide (c.chat_id ∉ validC)) = true then 1 else 0 := by
      by_cases hv : c.chat_id ∈ validC <;> simp [hv]
    rw [he1]
    by_cases hseen : c.chat_id ∈ seen
    · have he2 : (if c.chat_id ∈ seen then [vriDupMsg c.chat_id] else ([] : List String)).length
          = 1 := by simp [hseen]
      rw [he2]
      have hins : insert c.chat_id seen = seen := Finset.insert_eq_self.mpr hseen
      rw [hins] at hIH ⊢
      have hsd : insert c.chat_id A \ seen = A \ seen := by
        ext a
        simp only [Finset.mem_sdiff, Finset.mem_insert]
        constructor
        · rintro ⟨h | h, hns⟩
          · exact absurd (h ▸ hseen) hns
          · exact ⟨h, hns⟩
        · rintro ⟨h, hns⟩; exact ⟨Or.inr h, hns⟩
      rw [hsd]
      simp only [List.length_cons]
      omega
    · have he2 : (if c.chat_id ∈ seen then [vriDupMsg c.chat_id] else ([] : List String)).length
          = 0 := by simp [hseen]
      rw [he2]
      have hsd : insert c.chat_id A \ seen = insert c.chat_id (A \ seen) :=
        Finset.insert_sdiff_of_not_mem A hseen
      have hsd2 : A \ insert c.chat_id seen = (A \ seen).erase c.chat_id :=
        Finset.sdiff_insert A seen c.chat_id
      rw [hsd]
      rw [hsd2] at hIH
      have hkey : (insert c.chat_id (A \ seen)).card
          = 1 + ((A \ seen).erase c.chat_id).card := by
        by_cases hx : c.chat_id ∈ A \ seen
        · rw [Finset.insert_eq_self.mpr hx, Finset.card_erase_of_mem hx]
          have := Finset.card_pos.mpr ⟨c.chat_id, hx⟩
          omega
        · rw [Finset.card_insert_of_not_mem hx, Finset.erase_eq_of_not_mem hx]
          omega
      simp only [List.length_cons]
      omega

/-- Counting the duplicate messages for one `chat_id`: every occurrence after
the first (or every occurrence at all when the id was already seen) yields
exactly one message. -/
theorem vriChats_dupcount (validC : Finset Int) (i : Nat) (cid : Int) :
    ∀ (cs : List ChatAssignment) (j : Nat) (seen : Finset Int),
    ((vriChats validC i cs j seen).1.count (vriDupMsg cid))
      = (cs.map (fun c => c.chat_id)).count cid - (if cid ∈ seen then 0 else 1) := by
  intro cs
  induction cs with
  | nil => intro j seen; simp [vriChats]
  | cons c cs ih =>
    intro j seen
    show ((if c.chat_id ∈ validC then ([] : List String) else [vriChatMsg i j c.chat_id]) ++
        (if c.chat_id ∈ seen then [vriDupMsg c.chat_id] else []) ++
        (vriChats validC i cs (j + 1) (insert c.chat_id seen)).1).count (vriDupMsg cid) = _
    rw [List.count_append, List.count_append]
    have hIH := ih (j + 1) (insert c.chat_id seen)
    have he1 : ((if c.chat_id ∈ validC then ([] : List String)
        else [vriChatMsg i j c.chat_id])).count (vriDupMsg cid) = 0 := by
      by_cases hv : c.chat_id ∈ validC
      · simp [hv]
      · simp only [if_neg hv]
        rw [List.count_eq_zero]
        intro hm
        rcases List.mem_singleton.mp hm with h
        exact vriChatMsg_ne_dup i j c.chat_id cid h.symm
    rw [he1, hIH]
    have hmapcount : ((c :: cs).map (fun c => c.chat_id)).count cid
        = (cs.map (fun c => c.chat_id)).count cid
          + if (c.chat_id == cid) = true then 1 else 0 := by
      rw [List.map_cons, List.count_cons]
    rw [hmapcount]
    set occ := (cs.map (fun c => c.chat_id)).count cid with hocc
    by_cases hc : c.chat_id = cid
    · have h1 : (c.chat_id == cid) = true := by simpa using hc
      have h2 : cid ∈ insert c.chat_id seen := by
        rw [Finset.mem_insert]
        exact Or.inl hc.symm
      rw [if_pos h1, if_pos h2]
      by_cases hseen : c.chat_id ∈ seen
      · have hseen2 : cid ∈ seen := hc ▸ hseen
        have he2 : ((if c.chat_id ∈ seen then [vriDupMsg c.chat_id]
            else ([] : List String))).count (vriDupMsg cid) = 1 := by
          rw [hc, if_pos hseen2]
          simp
        rw [he2, if_pos hseen2]
        omega
      · have hseen2 : cid ∉ seen := fun hx => hseen (by rw [hc]; exact hx)
        have he2 : ((if c.chat_id ∈ seen then [vriDupMsg c.chat_id]
            else ([] : List String))).count (vriDupMsg cid) = 0 := by
          simp [hseen]
        rw [he2, if_neg hseen2]
        omega
    · have hne : ¬ ((c.chat_id == cid) = true) := by simpa using hc
      have he2 : ((if c.chat_id ∈ seen then [vriDupMsg c.chat_id]
          else ([] : List String))).count (vriDupMsg cid) = 0 := by
        by_cases hseen : c.chat_id ∈ seen
        · simp only [if_pos hseen]
          rw [List.count_eq_zero]
          intro hm
          rcases List.mem_singleton.mp hm with h
          exact hc (vriDupMsg_inj h).symm
        · simp [hseen]
      rw [he2]
      have hmem : (cid ∈ insert c.chat_id seen) ↔ (cid ∈ seen) := by
        rw [Finset.mem_insert]
        constructor
        · rintro (h | h)
          · exact absurd h.symm hc
          · exact h
        · exact Or.inr
      by_cases hseen : cid ∈ seen
      · rw [if_pos (hmem.mpr hseen), if_pos hseen, if_neg hne]
        omega
      · rw [if_neg (fun hx => hseen (hmem.mp hx)), if_neg hseen, if_neg hne]
        omega

theorem chatIdsFA_cons (f : FolderAssignment) (fs : List FolderAssignment) :
    chatIdsFA (f :: fs) = f.chats.map (fun c => c.chat_id) ++ chatIdsFA fs := by
  simp [chatIdsFA]

/-- Splitting a set difference along the seen-set threading of the folder
loop. -/
theorem sdiff_card_split (A B seen : Finset Int) :
    ((A ∪ B) \ seen).card = (A \ seen).card + (B \ (seen ∪ A)).card := by
  rw [← Finset.card_union_of_disjoint]
  · congr 1
    ext a
    simp only [Finset.mem_sdiff, Finset.mem_union]
    tauto
  · rw [Finset.disjoint_left]
    intro a ha hb
    simp only [Finset.mem_sdiff, Finset.mem_union] at ha hb
    tauto

/-- The validator reports nothing exactly when all folder ids are known, all
chat ids are known, the chat ids are pairwise distinct and none was already
seen. -/
theorem vriFolders_nil_iff (validF validC : Finset Int) :
    ∀ (fs : List FolderAssignment) (i : Nat) (seen : Finset Int),
    vriFolders validF validC fs i seen = [] ↔
      ((∀ f ∈ fs, f.folder_id ∈ validF) ∧ (∀ a ∈ chatIdsFA fs, a ∈ validC)
        ∧ (chatIdsFA fs).Nodup ∧ ∀ a ∈ chatIdsFA fs, a ∉ seen) := by
  intro fs
  induction fs with
  | nil => intro i seen; simp [vriFolders, chatIdsFA]
  | cons f fs ih =>
    intro i seen
    show ((if f.folder_id ∈ validF then ([] : List String) else [vriFolderMsg i f.folder_id])
        ++ (vriChats validC i f.chats 0 seen).1
        ++ vriFolders validF validC fs (i + 1) (vriChats validC i f.chats 0 seen).2) = [] ↔ _
    rw [List.append_eq_nil, List.append_eq_nil]
    rw [vriChats_seen validC i f.chats 0 seen]
    rw [ih (i + 1) _, vriChats_nil_iff]
    rw [chatIdsFA_cons]
    constructor
    · rintro ⟨⟨he1, hcv, hcn, hcs⟩, hfv, hrv, hrn, hrs⟩
      have hfe : f.folder_id ∈ validF := by
        by_contra hx
        rw [if_neg hx] at he1
        exact absurd he1 (by simp)
      refine ⟨?_, ?_, ?_, ?_⟩
      · intro g hg
        rcases List.mem_cons.mp hg with h | h
        · rw [h]; exact hfe
        · exact hfv g h
      · intro a ha
        rcases List.mem_append.mp ha with h | h
        · obtain ⟨c, hc, rfl⟩ := List.mem_map.mp h
          exact hcv c hc
        · exact hrv a h
      · rw [List.nodup_append]
        refine ⟨hcn, hrn, ?_⟩
        intro a haf har
        exact hrs a har (Finset.mem_union_right _ (List.mem_toFinset.mpr haf))
      · intro a ha hsn
        rcases List.mem_append.mp ha with h | h
        · exact hcs a h hsn
        · exact hrs a h (Finset.mem_union_left _ hsn)
    · rintro ⟨hfv, hv, hnd, hns⟩
      rw [List.nodup_append] at hnd
      obtain ⟨hcn, hrn, hdisj⟩ := hnd
      have hfe : f.folder_id ∈ validF := hfv f (by simp)
      refine ⟨⟨by simp [hfe], ?_, hcn, ?_⟩, ?_, ?_, hrn, ?_⟩
      · intro c hc
        exact hv c.chat_id (List.mem_append_left _ (List.mem_map_of_mem _ hc))
      · intro a ha
        exact hns a (List.mem_append_left _ ha)
      · intro g hg
        exact hfv g (List.mem_cons_of_mem f hg)
      · intro a ha
        exact hv a (List.mem_append_right _ ha)
      · intro a ha hu
        rcases Finset.mem_union.mp hu with h | h
        · exact hns a (List.mem_append_right _ ha) h
        · exact hdisj (List.mem_toFinset.mp h) ha

/-- Counting everything the validator reports: messages plus distinct chat
ids add up to bad folders plus bad chat occurrences plus all chat
occurrences. -/
theorem vriFolders_len (validF validC : Finset Int) :
    ∀ (fs : List FolderAssignment) (i : Nat) (seen : Finset Int),
    (vriFolders validF validC fs i seen).length + ((chatIdsFA fs).toFinset \ seen).card
      = fs.countP (fun f => decide (f.folder_id ∉ validF))
        + (chatIdsFA fs).countP (fun a => decide (a ∉ validC)) + (chatIdsFA fs).length := by
  intro fs
  induction fs with
  | nil => intro i seen; simp [vriFolders, chatIdsFA]
  | cons f fs ih =>
    intro i seen
    show ((if f.folder_id ∈ validF then ([] : List String) else [vriFolderMsg i f.folder_id])
        ++ (vriChats validC i f.chats 0 seen).1
        ++ vriFolders validF validC fs (i + 1) (vriChats validC i f.chats 0 seen).2).length
        + _ = _
    rw [List.append_assoc, List.length_append, List.length_append]
    rw [vriChats_seen validC i f.chats 0 seen]
    rw [chatIdsFA_cons]
    have hchat := vriChats_len validC i f.chats 0 seen
    have hrest := ih (i + 1) (seen ∪ (f.chats.map (fun c => c.chat_id)).toFinset)
    have hsplit : ((f.chats.map (fun c => c.chat_id) ++ chatIdsFA fs).toFinset \ seen).card
        = ((f.chats.map (fun c => c.chat_id)).toFinset \ seen).card
          + ((chatIdsFA fs).toFinset
              \ (seen ∪ (f.chats.map (fun c => c.chat_id)).toFinset)).card := by
      rw [List.toFinset_append]
      exact sdiff_card_split _ _ _
    rw [hsplit]
    rw [List.countP_cons, List.countP_append, List.length_append]
    have he1 : (if f.folder_id ∈ validF then ([] : List String)
        else [vriFolderMsg i f.folder_id]).length
        = if (decide (f.folder_id ∉ validF)) = true then 1 else 0 := by
      by_cases hv : f.folder_id ∈ validF <;> simp [hv]
    rw [he1]
    have hcmap : f.chats.countP (fun c => decide (c.chat_id ∉ validC))
        = (f.chats.map (fun c => c.chat_id)).countP (fun a => decide (a ∉ validC)) := by
      rw [List.countP_map]
      rfl
    rw [hcmap] at hchat
    have hlm : (f.chats.map (fun c => c.chat_id)).length = f.chats.length :=
      List.length_map _ _
    omega

/-- Counting the duplicate messages of one `chat_id` over the whole folder
loop. -/
theorem vriFolders_dupcount (validF validC : Finset Int) (cid : Int) :
    ∀ (fs : List FolderAssignment) (i : Nat) (seen : Finset Int),
    (vriFolders validF validC fs i seen).count (vriDupMsg cid)
      = (chatIdsFA fs).count cid - (if cid ∈ seen then 0 else 1) := by
  intro fs
  induction fs with
  | nil => intro i seen; simp [vriFolders, chatIdsFA]
  | cons f fs ih =>
    intro i seen
    show ((if f.folder_id ∈ validF then ([] : List String) else [vriFolderMsg i f.folder_id])
        ++ (vriChats validC i f.chats 0 seen).1
        ++ vriFolders validF validC fs (i + 1)
            (vriChats validC i f.chats 0 seen).2).count (vriDupMsg cid) = _
    rw [List.append_assoc, List.count_append, List.count_append]
    rw [vriChats_seen validC i f.chats 0 seen]
    rw [chatIdsFA_cons, List.count_append]
    have he1 : (if f.folder_id ∈ validF then ([] : List String)
        else [vriFolderMsg i f.folder_id]).count (vriDupMsg cid) = 0 := by
      by_cases hv : f.folder_id ∈ validF
      · simp [hv]
      · simp only [if_neg hv]
        rw [List.count_eq_zero]
        intro hm
        rcases List.mem_singleton.mp hm with h
        exact vriFolderMsg_ne_dup i f.folder_id cid h.symm
    rw [he1]
    have hchat := vriChats_dupcount validC i cid f.chats 0 seen
    have hrest := ih (i + 1) (seen ∪ (f.chats.map (fun c => c.chat_id)).toFinset)
    rw [hchat, hrest]
    set cf := (f.chats.map (fun c => c.chat_id)).count cid with hcf
    set cr := (chatIdsFA fs).count cid with hcr
    by_cases hseen : cid ∈ seen
    · have hu : cid ∈ seen ∪ (f.chats.map (fun c => c.chat_id)).toFinset :=
        Finset.mem_union_left _ hseen
      rw [if_pos hseen, if_pos hu]
      omega
    · rw [if_neg hseen]
      by_cases hf : cid ∈ f.chats.map (fun c => c.chat_id)
      · have hu : cid ∈ seen ∪ (f.chats.map (fun c => c.chat_id)).toFinset :=
          Finset.mem_union_right _ (List.mem_toFinset.mpr hf)
        rw [if_pos hu]
        have hcf1 : 0 < cf := List.count_pos_iff.mpr hf
        omega
      · have hu : cid ∉ seen ∪ (f.chats.map (fun c => c.chat_id)).toFinset := by
          intro hx
          rcases Finset.mem_union.mp hx with h | h
          · exact hseen h
          · exact hf (List.mem_toFinset.mp h)
        rw [if_neg hu]
        have hcf0 : cf = 0 := List.count_eq_zero.mpr hf
        omega

/-- Membership in the assigned set built by `compute_unassigned_chats`'s
inner fold. -/
theorem unassigned_inner_fold_mem :
    ∀ (cs : List ChatAssignment) (s : Finset Int) (a : Int),
    (a ∈ cs.foldl (fun s2 c => insert c.chat_id s2) s) ↔
      a ∈ s ∨ a ∈ cs.map (fun c => c.chat_id) := by
  intro cs
  induction cs with
  | nil => intro s a; simp
  | cons c cs ih =>
    intro s a
    show (a ∈ cs.foldl (fun s2 c => insert c.chat_id s2) (insert c.chat_id s)) ↔ _
    rw [ih]
    simp only [Finset.mem_insert, List.map_cons, List.mem_cons]
    tauto

/-- Membership in the assigned set built by `compute_unassigned_chats`. -/
theorem unassigned_fold_mem :
    ∀ (fs : List FolderAssignment) (s : Finset Int) (a : Int),
    (a ∈ fs.foldl (fun s f => f.chats.foldl (fun s2 c => insert c.chat_id s2) s) s) ↔
      a ∈ s ∨ a ∈ chatIdsFA fs := by
  intro fs
  induction fs with
  | nil => intro s a; simp [chatIdsFA]
  | cons f fs ih =>
    intro s a
    show (a ∈ fs.foldl _ (f.chats.foldl (fun s2 c => insert c.chat_id s2) s)) ↔ _
    rw [ih, unassigned_inner_fold_mem, chatIdsFA_cons]
    simp only [List.mem_append]
    tauto

theorem mem_chatIdsFA (fs : List FolderAssignment) (a : Int) :
    a ∈ chatIdsFA fs ↔ ∃ f ∈ fs, ∃ c ∈ f.chats, c.chat_id = a := by
  simp [chatIdsFA, List.mem_flatMap, List.mem_map]

/-- `appendChat` with no matching bucket appends a fresh bucket at the end. -/
theorem appendChat_no_match (fid : Int) (title : String) (c : ChatAssignment) :
    ∀ l : List FolderAssignment, (∀ f ∈ l, f.folder_id ≠ fid) →
      appendChat l fid title c = l ++ [⟨fid, title, [c]⟩] := by
  intro l
  induction l with
  | nil => intro _; rfl
  | cons g gs ih =>
    intro hno
    have hg : g.folder_id ≠ fid := hno g (by simp)
    simp only [appendChat, if_neg hg]
    rw [ih (fun x hx => hno x (by simp [hx]))]
    rfl

/-- `appendChat` appends the entry to the first matching bucket and leaves
everything else untouched. -/
theorem appendChat_first_match (fid : Int) (title : String) (c : ChatAssignment)
    (f : FolderAssignment) (s : List FolderAssignment) (hf : f.folder_id = fid) :
    ∀ p : List FolderAssignment, (∀ g ∈ p, g.folder_id ≠ fid) →
      appendChat (p ++ f :: s) fid title c
        = p ++ ⟨f.folder_id, f.folder_title, f.chats ++ [c]⟩ :: s := by
  intro p
  induction p with
  | nil =>
    intro _
    simp only [List.nil_append, appendChat, if_pos hf]
  | cons g gs ih =>
    intro hp
    have hg : g.folder_id ≠ fid := hp g (by simp)
    simp only [List.cons_append, appendChat, if_neg hg]
    exact congrArg (fun l => g :: l) (ih (fun x hx => hp x (by simp [hx])))

/-! ### The batch merger: characterization lemmas -/

theorem dfa_append {α : Type} (key : α → Int) :
    ∀ (l1 l2 : List α) (s : Finset Int),
    dedupFirstAux key s (l1 ++ l2)
      = dedupFirstAux key s l1 ++ dedupFirstAux key (s ∪ (l1.map key).toFinset) l2 := by
  intro l1
  induction l1 with
  | nil =>
    intro l2 s
    simp [dedupFirstAux]
  | cons x t ih =>
    intro l2 s
    show dedupFirstAux key s (x :: (t ++ l2)) = _
    by_cases hx : key x ∈ s
    · show (if key x ∈ s then dedupFirstAux key s (t ++ l2) else _) = _
      rw [if_pos hx, ih]
      show _ = (if key x ∈ s then dedupFirstAux key s t else _) ++ _
      rw [if_pos hx]
      have hseen : s ∪ (t.map key).toFinset
          = s ∪ ((x :: t).map key).toFinset := by
        ext a
        simp only [Finset.mem_union, List.mem_toFinset, List.map_cons, List.mem_cons]
        constructor
        · rintro (h | h)
          · exact Or.inl h
          · exact Or.inr (Or.inr h)
        · rintro (h | h | h)
          · exact Or.inl h
          · rw [h]; exact Or.inl hx
          · exact Or.inr h
      rw [hseen]
    · show (if key x ∈ s then _ else x :: dedupFirstAux key (insert (key x) s) (t ++ l2)) = _
      rw [if_neg hx, ih]
      show _ = (if key x ∈ s then _ else x :: dedupFirstAux key (insert (key x) s) t) ++ _
      rw [if_neg hx]
      have hseen : (insert (key x) s) ∪ (t.map key).toFinset
          = s ∪ ((x :: t).map key).toFinset := by
        ext a
        simp only [Finset.mem_union, Finset.mem_insert, List.mem_toFinset, List.map_cons,
          List.mem_cons]
        tauto
      rw [hseen]
      rfl

theorem dfa_cons_of_mem {α : Type} (key : α → Int) {s : Finset Int} {y : α}
    (t : List α) (hy : key y ∈ s) :
    dedupFirstAux key s (y :: t) = dedupFirstAux key s t := by
  show (if key y ∈ s then dedupFirstAux key s t
    else y :: dedupFirstAux key (insert (key y) s) t) = dedupFirstAux key s t
  rw [if_pos hy]

theorem dfa_cons_of_not_mem {α : Type} (key : α → Int) {s : Finset Int} {y : α}
    (t : List α) (hy : key y ∉ s) :
    dedupFirstAux key s (y :: t) = y :: dedupFirstAux key (insert (key y) s) t := by
  show (if key y ∈ s then dedupFirstAux key s t
    else y :: dedupFirstAux key (insert (key y) s) t) = _
  rw [if_neg hy]

theorem dfa_mem {α : Type} (key : α → Int) :
    ∀ (l : List α) (s : Finset Int) (x : α), x ∈ dedupFirstAux key s l → x ∈ l := by
  intro l
  induction l with
  | nil => intro s x h; exact absurd h (by simp [dedupFirstAux])
  | cons y t ih =>
    intro s x h
    by_cases hy : key y ∈ s
    · rw [dfa_cons_of_mem key t hy] at h
      exact List.mem_cons_of_mem y (ih s x h)
    · rw [dfa_cons_of_not_mem key t hy] at h
      rcases List.mem_cons.mp h with h | h
      · rw [h]; simp
      · exact List.mem_cons_of_mem y (ih _ x h)

theorem dfa_mem_keys {α : Type} (key : α → Int) :
    ∀ (l : List α) (s : Finset Int) (a : Int),
    (a ∈ (dedupFirstAux key s l).map key) ↔ (a ∈ l.map key ∧ a ∉ s) := by
  intro l
  induction l with
  | nil => intro s a; simp [dedupFirstAux]
  | cons y t ih =>
    intro s a
    by_cases hy : key y ∈ s
    · rw [dfa_cons_of_mem key t hy]
      rw [ih]
      simp only [List.map_cons, List.mem_cons]
      constructor
      · rintro ⟨h, hn⟩; exact ⟨Or.inr h, hn⟩
      · rintro ⟨h | h, hn⟩
        · exact absurd (h ▸ hy) hn
        · exact ⟨h, hn⟩
    · rw [dfa_cons_of_not_mem key t hy]
      simp only [List.map_cons, List.mem_cons]
      rw [ih]
      constructor
      · rintro (h | ⟨h, hn⟩)
        · exact ⟨Or.inl h, h ▸ hy⟩
        · refine ⟨Or.inr h, fun hs => hn (Finset.mem_insert_of_mem hs)⟩
      · rintro ⟨h | h, hn⟩
        · exact Or.inl h
        · by_cases hk : a = key y
          · exact Or.inl hk
          · exact Or.inr ⟨h, by
              intro hs
              rcases Finset.mem_insert.mp hs with hh | hh
              · exact hk hh
              · exact hn hh⟩

/-- The keys of a first-wins dedup are pairwise distinct. -/
theorem dfa_nodup_keys {α : Type} (key : α → Int) :
    ∀ (l : List α) (s : Finset Int), ((dedupFirstAux key s l).map key).Nodup := by
  intro l
  induction l with
  | nil => intro s; simp [dedupFirstAux]
  | cons y t ih =>
    intro s
    by_cases hy : key y ∈ s
    · rw [dfa_cons_of_mem key t hy]
      exact ih s
    · rw [dfa_cons_of_not_mem key t hy]
      rw [List.map_cons, List.nodup_cons]
      refine ⟨?_, ih _⟩
      intro hmem
      exact ((dfa_mem_keys key t _ (key y)).mp hmem).2 (Finset.mem_insert_self _ _)

theorem pairsFA_append (l1 l2 : List FolderAssignment) :
    pairsFA (l1 ++ l2) = pairsFA l1 ++ pairsFA l2 := by
  simp [pairsFA]

theorem pairsFA_cons (f : FolderAssignment) (fs : List FolderAssignment) :
    pairsFA (f :: fs) = f.chats.map (fun c => (f.folder_id, c)) ++ pairsFA fs := by
  simp [pairsFA]

theorem chatIdsFA_eq_pairs_map (fs : List FolderAssignment) :
    chatIdsFA fs = (pairsFA fs).map pairKey := by
  induction fs with
  | nil => rfl
  | cons f fs ih =>
    rw [chatIdsFA_cons, pairsFA_cons, List.map_append, ih, List.map_map]
    rfl

theorem addChatToBucket_fids (fs : List FolderAssignment) (fid : Int) (c : ChatAssignment) :
    (addChatToBucket fs fid c).map (fun f => f.folder_id)
      = fs.map (fun f => f.folder_id) := by
  induction fs with
  | nil => rfl
  | cons g gs ih =>
    by_cases hg : g.folder_id = fid
    · simp only [addChatToBucket, if_pos hg]
      rfl
    · simp only [addChatToBucket, if_neg hg, List.map_cons]
      rw [ih]

theorem addChatToBucket_perm (fid : Int) (c : ChatAssignment) :
    ∀ (fs : List FolderAssignment), fid ∈ fs.map (fun f => f.folder_id) →
    (pairsFA (addChatToBucket fs fid c)).Perm ((fid, c) :: pairsFA fs) := by
  intro fs
  induction fs with
  | nil => intro h; exact absurd h (by simp)
  | cons g gs ih =>
    intro hmem
    by_cases hg : g.folder_id = fid
    · simp only [addChatToBucket, if_pos hg]
      rw [pairsFA_cons, pairsFA_cons]
      simp only [List.map_append, List.map_cons, List.map_nil]
      rw [hg]
      have : (g.chats.map (fun x => (fid, x)) ++ [(fid, c)]) ++ pairsFA gs
          = g.chats.map (fun x => (fid, x)) ++ (fid, c) :: pairsFA gs := by
        rw [List.append_assoc]
        rfl
      show ((g.chats.map (fun x => (fid, x)) ++ [(fid, c)]) ++ pairsFA gs).Perm _
      rw [this]
      exact List.perm_middle
    · have hmem2 : fid ∈ gs.map (fun f => f.folder_id) := by
        rw [List.map_cons] at hmem
        rcases List.mem_cons.mp hmem with h | h
        · exact absurd h.symm hg
        · exact h
      simp only [addChatToBucket, if_neg hg]
      rw [pairsFA_cons, pairsFA_cons]
      have hperm := ih hmem2
      have h1 : (g.chats.map (fun x => (g.folder_id, x))
            ++ pairsFA (addChatToBucket gs fid c)).Perm
          (g.chats.map (fun x => (g.folder_id, x)) ++ (fid, c) :: pairsFA gs) :=
        List.Perm.append_left _ hperm
      exact h1.trans List.perm_middle

/-- The invariant of the merger's inner chat loop: folder ids unchanged, the
assigned set tracks exactly the chat ids present in the buckets, those ids
stay pairwise distinct, the assigned set grows by the processed ids, and the
bucket contents grow by exactly the first-wins-filtered pairs. -/
theorem merge_chats_fold (fid : Int) :
    ∀ (cs : List ChatAssignment) (st : MergeState),
    fid ∈ st.folders.map (fun f => f.folder_id) →
    st.assigned = (chatIdsFA st.folders).toFinset →
    (chatIdsFA st.folders).Nodup →
    ((cs.foldl (mergeChatStep fid) st).folders.map (fun f => f.folder_id)
        = st.folders.map (fun f => f.folder_id))
    ∧ (cs.foldl (mergeChatStep fid) st).assigned
        = (chatIdsFA (cs.foldl (mergeChatStep fid) st).folders).toFinset
    ∧ (chatIdsFA (cs.foldl (mergeChatStep fid) st).folders).Nodup
    ∧ (cs.foldl (mergeChatStep fid) st).assigned
        = st.assigned ∪ (cs.map (fun c => c.chat_id)).toFinset
    ∧ (∀ p, p ∈ pairsFA (cs.foldl (mergeChatStep fid) st).folders ↔
        (p ∈ pairsFA st.folders
          ∨ p ∈ dedupFirstAux pairKey st.assigned (cs.map (fun c => (fid, c))))) := by
  intro cs
  induction cs with
  | nil =>
    intro st h1 h2 h3
    refine ⟨rfl, h2, h3, by simp, ?_⟩
    intro p
    simp [dedupFirstAux]
  | cons c cs ih =>
    intro st h1 h2 h3
    by_cases hmem : c.chat_id ∈ st.assigned
    · have hstep : mergeChatStep fid st c = st := by
        unfold mergeChatStep
        rw [if_pos hmem]
      simp only [List.foldl_cons, hstep]
      obtain ⟨g1, g2, g3, g4, g5⟩ := ih st h1 h2 h3
      refine ⟨g1, g2, g3, ?_, ?_⟩
      · rw [g4]
        ext a
        simp only [Finset.mem_union, List.mem_toFinset, List.map_cons, List.mem_cons]
        constructor
        · rintro (h | h)
          · exact Or.inl h
          · exact Or.inr (Or.inr h)
        · rintro (h | h | h)
          · exact Or.inl h
          · exact Or.inl (h ▸ hmem)
          · exact Or.inr h
      · intro p
        rw [g5, List.map_cons,
          dfa_cons_of_mem pairKey (cs.map (fun c => (fid, c)))
            (show pairKey ((fid, c) : Int × ChatAssignment) ∈ st.assigned from hmem)]
    · have hstep : mergeChatStep fid st c
          = ⟨addChatToBucket st.folders fid c, insert c.chat_id st.assigned⟩ := by
        unfold mergeChatStep
        rw [if_neg hmem]
      simp only [List.foldl_cons, hstep]
      have hids : (addChatToBucket st.folders fid c).map (fun f => f.folder_id)
          = st.folders.map (fun f => f.folder_id) := addChatToBucket_fids _ _ _
      have h1b : fid ∈ (MergeState.mk (addChatToBucket st.folders fid c)
          (insert c.chat_id st.assigned)).folders.map (fun f => f.folder_id) := by
        show fid ∈ (addChatToBucket st.folders fid c).map (fun f => f.folder_id)
        rw [hids]
        exact h1
      have hperm : (pairsFA (addChatToBucket st.folders fid c)).Perm
          ((fid, c) :: pairsFA st.folders) := addChatToBucket_perm fid c st.folders h1
      have hidsperm : (chatIdsFA (addChatToBucket st.folders fid c)).Perm
          (c.chat_id :: chatIdsFA st.folders) := by
        rw [chatIdsFA_eq_pairs_map, chatIdsFA_eq_pairs_map]
        have hm := hperm.map pairKey
        simpa using hm
      have hnotin : c.chat_id ∉ chatIdsFA st.folders := by
        intro hx
        exact hmem (h2 ▸ List.mem_toFinset.mpr hx)
      have h3b : (chatIdsFA (addChatToBucket st.folders fid c)).Nodup :=
        (List.Perm.nodup hidsperm.symm) (List.nodup_cons.mpr ⟨hnotin, h3⟩)
      have h2b : insert c.chat_id st.assigned
          = (chatIdsFA (addChatToBucket st.folders fid c)).toFinset := by
        rw [h2, List.toFinset_eq_of_perm _ _ hidsperm]
        simp
      obtain ⟨g1, g2, g3, g4, g5⟩ := ih ⟨addChatToBucket st.folders fid c,
        insert c.chat_id st.assigned⟩ h1b h2b h3b
      refine ⟨by rw [g1]; exact hids, g2, g3, ?_, ?_⟩
      · rw [g4]
        show insert c.chat_id st.assigned ∪ _ = _
        ext a
        simp only [Finset.mem_union, Finset.mem_insert, List.mem_toFinset, List.map_cons,
          List.mem_cons]
        tauto
      · intro p
        rw [g5]
        have hkey : pairKey (fid, c) = c.chat_id := rfl
        rw [List.map_cons, dfa_cons_of_not_mem pairKey (cs.map (fun c => (fid, c)))
          (by rw [hkey]; exact hmem)]
        rw [hkey]
        have hmem_iff : p ∈ pairsFA (addChatToBucket st.folders fid c) ↔ p ∈ (fid, c) :: pairsFA st.folders := hperm.mem_iff
        rw [List.mem_cons] at hmem_iff
        show (p ∈ pairsFA (addChatToBucket st.folders fid c) ∨ _) ↔ _
        rw [hmem_iff, List.mem_cons]
        tauto

theorem chatIdsFA_append (l1 l2 : List FolderAssignment) :
    chatIdsFA (l1 ++ l2) = chatIdsFA l1 ++ chatIdsFA l2 := by
  simp [chatIdsFA]

theorem toFinset_append_singleton (l : List Int) (x : Int) :
    (l ++ [x]).toFinset = insert x l.toFinset := by
  ext a
  simp only [List.toFinset_append, Finset.mem_union, List.mem_toFinset, List.mem_singleton,
    Finset.mem_insert]
  tauto

/-- The invariant of the merger's outer folder loop. -/
theorem merge_folders_fold (lookup : Int → Option String) :
    ∀ (items : List FolderAssignment) (st : MergeState),
    st.assigned = (chatIdsFA st.folders).toFinset →
    (chatIdsFA st.folders).Nodup →
    (st.folders.map (fun f => f.folder_id)).Nodup →
    ((items.foldl (mergeFolderStep lookup) st).assigned
        = (chatIdsFA (items.foldl (mergeFolderStep lookup) st).folders).toFinset)
    ∧ (chatIdsFA (items.foldl (mergeFolderStep lookup) st).folders).Nodup
    ∧ ((items.foldl (mergeFolderStep lookup) st).folders.map (fun f => f.folder_id)).Nodup
    ∧ (∀ p, p ∈ pairsFA (items.foldl (mergeFolderStep lookup) st).folders ↔
        (p ∈ pairsFA st.folders ∨ p ∈ dedupFirstAux pairKey st.assigned (pairsFA items)))
    ∧ (items.foldl (mergeFolderStep lookup) st).folders.map (fun f => f.folder_id)
        = st.folders.map (fun f => f.folder_id)
          ++ dedupFirstAux (fun x => x) ((st.folders.map (fun f => f.folder_id)).toFinset)
              (items.map (fun f => f.folder_id)) := by
  intro items
  induction items with
  | nil =>
    intro st h1 h2 h3
    refine ⟨h1, h2, h3, ?_, by simp [dedupFirstAux]⟩
    intro p
    show p ∈ pairsFA st.folders ↔ p ∈ pairsFA st.folders ∨ p ∈ dedupFirstAux pairKey st.assigned (pairsFA [])
    simp [pairsFA, dedupFirstAux]
  | cons fi items ih =>
    intro st h1 h2 h3
    simp only [List.foldl_cons]
    by_cases hpres : fi.folder_id ∈ st.folders.map (fun f => f.folder_id)
    · have hany : st.folders.any (fun f => f.folder_id = fi.folder_id) = true := by
        rw [List.any_eq_true]
        obtain ⟨f, hf, heq⟩ := List.mem_map.mp hpres
        exact ⟨f, hf, by simp [heq]⟩
      have hstep : mergeFolderStep lookup st fi
          = fi.chats.foldl (mergeChatStep fi.folder_id) st := by
        show fi.chats.foldl (mergeChatStep fi.folder_id)
          (if st.folders.any (fun f => f.folder_id = fi.folder_id) then st
            else ⟨st.folders ++ [(⟨fi.folder_id, mergeTitle fi lookup, []⟩ : FolderAssignment)], st.assigned⟩) = _
        rw [if_pos hany]
      rw [hstep]
      obtain ⟨i1, i2, i3, i4, i5⟩ := merge_chats_fold fi.folder_id fi.chats st hpres h1 h2
      obtain ⟨o1, o2, o3, o4, o5⟩ := ih (fi.chats.foldl (mergeChatStep fi.folder_id) st)
        i2 i3 (by rw [i1]; exact h3)
      refine ⟨o1, o2, o3, ?_, ?_⟩
      · intro p
        rw [o4 p, i5 p, i4]
        rw [pairsFA_cons, dfa_append]
        have hkeys : ((fi.chats.map (fun c => (fi.folder_id, c))).map pairKey).toFinset
            = (fi.chats.map (fun c => c.chat_id)).toFinset := by
          rw [List.map_map]
          rfl
        rw [hkeys, List.mem_append]
        tauto
      · rw [o5, i1, List.map_cons,
          dfa_cons_of_mem (fun x => x) (items.map (fun f => f.folder_id))
            (show fi.folder_id ∈ (st.folders.map (fun f => f.folder_id)).toFinset from
              List.mem_toFinset.mpr hpres)]
    · have hany : ¬ (st.folders.any (fun f => f.folder_id = fi.folder_id) = true) := by
        rw [List.any_eq_true]
        rintro ⟨f, hf, heq⟩
        apply hpres
        rw [List.mem_map]
        exact ⟨f, hf, by simpa using heq⟩
      have hstep : mergeFolderStep lookup st fi
          = fi.chats.foldl (mergeChatStep fi.folder_id)
              ⟨st.folders ++ [(⟨fi.folder_id, mergeTitle fi lookup, []⟩ : FolderAssignment)], st.assigned⟩ := by
        show fi.chats.foldl (mergeChatStep fi.folder_id)
          (if st.folders.any (fun f => f.folder_id = fi.folder_id) then st
            else ⟨st.folders ++ [(⟨fi.folder_id, mergeTitle fi lookup, []⟩ : FolderAssignment)], st.assigned⟩) = _
        rw [if_neg hany]
      rw [hstep]
      have hch1 : chatIdsFA (st.folders ++ [(⟨fi.folder_id, mergeTitle fi lookup, []⟩ : FolderAssignment)])
          = chatIdsFA st.folders := by
        rw [chatIdsFA_append]
        show chatIdsFA st.folders ++ [] = chatIdsFA st.folders
        rw [List.append_nil]
      have hpr1 : pairsFA (st.folders ++ [(⟨fi.folder_id, mergeTitle fi lookup, []⟩ : FolderAssignment)])
          = pairsFA st.folders := by
        rw [pairsFA_append]
        show pairsFA st.folders ++ [] = pairsFA st.folders
        rw [List.append_nil]
      have hids1 : (st.folders ++ [(⟨fi.folder_id, mergeTitle fi lookup, []⟩ : FolderAssignment)]).map
            (fun f => f.folder_id)
          = st.folders.map (fun f => f.folder_id) ++ [fi.folder_id] := by
        rw [List.map_append]
        rfl
      have hfid1 : fi.folder_id ∈ (MergeState.mk
          (st.folders ++ [(⟨fi.folder_id, mergeTitle fi lookup, []⟩ : FolderAssignment)])
          st.assigned).folders.map (fun f => f.folder_id) := by
        show fi.folder_id ∈ (st.folders ++ [(⟨fi.folder_id, mergeTitle fi lookup, []⟩ : FolderAssignment)]).map
          (fun f => f.folder_id)
        rw [hids1]
        exact List.mem_append_right _ (by simp)
      have h1b : (MergeState.mk (st.folders ++ [(⟨fi.folder_id, mergeTitle fi lookup, []⟩ : FolderAssignment)])
          st.assigned).assigned = (chatIdsFA (MergeState.mk
            (st.folders ++ [(⟨fi.folder_id, mergeTitle fi lookup, []⟩ : FolderAssignment)])
            st.assigned).folders).toFinset := by
        show st.assigned = (chatIdsFA (st.folders
          ++ [(⟨fi.folder_id, mergeTitle fi lookup, []⟩ : FolderAssignment)])).toFinset
        rw [hch1]
        exact h1
      have h2b : (chatIdsFA (MergeState.mk
          (st.folders ++ [(⟨fi.folder_id, mergeTitle fi lookup, []⟩ : FolderAssignment)])
          st.assigned).folders).Nodup := by
        show (chatIdsFA (st.folders ++ [(⟨fi.folder_id, mergeTitle fi lookup, []⟩ : FolderAssignment)])).Nodup
        rw [hch1]
        exact h2
      obtain ⟨i1, i2, i3, i4, i5⟩ := merge_chats_fold fi.folder_id fi.chats
        ⟨st.folders ++ [(⟨fi.folder_id, mergeTitle fi lookup, []⟩ : FolderAssignment)], st.assigned⟩
        hfid1 h1b h2b
      have h3b : ((fi.chats.foldl (mergeChatStep fi.folder_id)
          ⟨st.folders ++ [(⟨fi.folder_id, mergeTitle fi lookup, []⟩ : FolderAssignment)],
            st.assigned⟩).folders.map (fun f => f.folder_id)).Nodup := by
        rw [i1]
        show ((st.folders ++ [(⟨fi.folder_id, mergeTitle fi lookup, []⟩ : FolderAssignment)]).map
          (fun f => f.folder_id)).Nodup
        rw [hids1, List.nodup_append]
        refine ⟨h3, by simp, ?_⟩
        intro a ha hb
        rw [List.mem_singleton] at hb
        exact hpres (hb ▸ ha)
      obtain ⟨o1, o2, o3, o4, o5⟩ := ih _ i2 i3 h3b
      refine ⟨o1, o2, o3, ?_, ?_⟩
      · intro p
        rw [o4 p, i5 p, i4]
        show _ ↔ (p ∈ pairsFA st.folders ∨ _)
        rw [hpr1]
        have hassigned : (MergeState.mk (st.folders
            ++ [(⟨fi.folder_id, mergeTitle fi lookup, []⟩ : FolderAssignment)]) st.assigned).assigned
            = st.assigned := rfl
        rw [hassigned]
        rw [pairsFA_cons, dfa_append]
        have hkeys : ((fi.chats.map (fun c => (fi.folder_id, c))).map pairKey).toFinset
            = (fi.chats.map (fun c => c.chat_id)).toFinset := by
          rw [List.map_map]
          rfl
        rw [hkeys, List.mem_append]
        tauto
      · rw [o5, i1]
        show (st.folders ++ [(⟨fi.folder_id, mergeTitle fi lookup, []⟩ : FolderAssignment)]).map
            (fun f => f.folder_id) ++ _ = _
        rw [hids1, toFinset_append_singleton, List.map_cons,
          dfa_cons_of_not_mem (fun x => x) (items.map (fun f => f.folder_id))
            (show (fi.folder_id : Int)
                ∉ (st.folders.map (fun f => f.folder_id)).toFinset from
              fun hx => hpres (List.mem_toFinset.mp hx))]
        rw [List.append_assoc]
        rfl

/-! ### The normalizer: characterization lemmas -/

/-- Every entry the chat normalizer emits is a well-formed chat object whose
reason is a `_truncate` output. -/
theorem normChats_shape :
    ∀ (items : List Json) (seen : Finset Int), ∀ j ∈ normChats items seen,
    ∃ cid ty s, j = mkChatObj cid ty (pyTruncate s 200) := by
  intro items
  induction items with
  | nil => intro seen j hj; exact absurd hj (by simp [normChats])
  | cons item rest ih =>
    intro seen j hj
    cases item with
    | obj fields =>
      cases hcid : pyToInt (pyGetD fields "chat_id" Json.null) with
      | some cid =>
        by_cases hseen : cid ∈ seen
        · rw [show normChats (Json.obj fields :: rest) seen = normChats rest seen by
            simp only [normChats, hcid]; rw [if_pos hseen]] at hj
          exact ih seen j hj
        · rw [show normChats (Json.obj fields :: rest) seen
              = mkChatObj cid (pyStr (pyGetD fields "type" (Json.str "UNKNOWN")))
                  (pyTruncate (pyStr (pyGetD fields "reason" (Json.str ""))) 200)
                :: normChats rest (insert cid seen) by
            simp only [normChats, hcid]; rw [if_neg hseen]] at hj
          rcases List.mem_cons.mp hj with h | h
          · exact ⟨cid, _, _, h⟩
          · exact ih _ j h
      | none =>
        rw [show normChats (Json.obj fields :: rest) seen = normChats rest seen by
          simp only [normChats, hcid]] at hj
        exact ih seen j hj
    | null =>
      rw [show normChats (Json.null :: rest) seen = normChats rest seen from rfl] at hj
      exact ih seen j hj
    | bool b =>
      rw [show normChats (Json.bool b :: rest) seen = normChats rest seen from rfl] at hj
      exact ih seen j hj
    | num n =>
      rw [show normChats (Json.num n :: rest) seen = normChats rest seen from rfl] at hj
      exact ih seen j hj
    | str s =>
      rw [show normChats (Json.str s :: rest) seen = normChats rest seen from rfl] at hj
      exact ih seen j hj
    | arr l =>
      rw [show normChats (Json.arr l :: rest) seen = normChats rest seen from rfl] at hj
      exact ih seen j hj

/-- Re-running the chat normalizer over its own output (with the same initial
seen set) changes nothing. -/
theorem normChats_idem :
    ∀ (items : List Json) (seen : Finset Int),
    normChats (normChats items seen) seen = normChats items seen := by
  intro items
  induction items with
  | nil => intro seen; rfl
  | cons item rest ih =>
    intro seen
    cases item with
    | obj fields =>
      cases hcid : pyToInt (pyGetD fields "chat_id" Json.null) with
      | some cid =>
        by_cases hseen : cid ∈ seen
        · rw [show normChats (Json.obj fields :: rest) seen = normChats rest seen by
            simp only [normChats, hcid]; rw [if_pos hseen]]
          exact ih seen
        · rw [show normChats (Json.obj fields :: rest) seen
              = mkChatObj cid (pyStr (pyGetD fields "type" (Json.str "UNKNOWN")))
                  (pyTruncate (pyStr (pyGetD fields "reason" (Json.str ""))) 200)
                :: normChats rest (insert cid seen) by
            simp only [normChats, hcid]; rw [if_neg hseen]]
          have hhead : normChats (mkChatObj cid
              (pyStr (pyGetD fields "type" (Json.str "UNKNOWN")))
              (pyTruncate (pyStr (pyGetD fields "reason" (Json.str ""))) 200)
              :: normChats rest (insert cid seen)) seen
              = mkChatObj cid (pyStr (pyGetD fields "type" (Json.str "UNKNOWN")))
                  (pyTruncate (pyTruncate (pyStr (pyGetD fields "reason" (Json.str ""))) 200) 200)
                :: normChats (normChats rest (insert cid seen)) (insert cid seen) := by
            show (if cid ∈ seen then _ else _) = _
            rw [if_neg hseen]
            rfl
          rw [hhead, pyTruncate_idem, ih]
      | none =>
        rw [show normChats (Json.obj fields :: rest) seen = normChats rest seen by
          simp only [normChats, hcid]]
        exact ih seen
    | null => exact ih seen
    | bool b => exact ih seen
    | num n => exact ih seen
    | str s => exact ih seen
    | arr l => exact ih seen

/-- Re-running the folder normalizer over an entry it produced returns the
entry unchanged. -/
theorem normFolder_renorm (j out : Json) (h : normFolder j = some out) :
    normFolder out = some out := by
  cases j with
  | obj fields =>
    cases hfid : pyToInt (pyGetD fields "folder_id" Json.null) with
    | some fid =>
      cases hch : pyGetD fields "chats" (Json.arr []) with
      | arr chatItems =>
        have hout : out = mkFolderObj fid
            (pyStrip (pyStr (pyGetD fields "folder_title" (Json.str ""))))
            (normChats chatItems ∅) := by
          have := h
          simp only [normFolder, hfid, hch] at this
          exact (Option.some.injEq _ _ ▸ this).symm
        rw [hout]
        show some (mkFolderObj fid
            (pyStrip (pyStrip (pyStr (pyGetD fields "folder_title" (Json.str "")))))
            (normChats (normChats chatItems ∅) ∅)) = _
        rw [pyStrip_idem, normChats_idem]
      | null => simp only [normFolder, hfid, hch] at h; exact Option.noConfusion h
      | bool b => simp only [normFolder, hfid, hch] at h; exact Option.noConfusion h
      | num n => simp only [normFolder, hfid, hch] at h; exact Option.noConfusion h
      | str s => simp only [normFolder, hfid, hch] at h; exact Option.noConfusion h
      | obj g => simp only [normFolder, hfid, hch] at h; exact Option.noConfusion h
    | none => simp only [normFolder, hfid] at h; exact Option.noConfusion h
  | null => exact absurd h (by simp [normFolder])
  | bool b => exact absurd h (by simp [normFolder])
  | num n => exact absurd h (by simp [normFolder])
  | str s => exact absurd h (by simp [normFolder])
  | arr l => exact absurd h (by simp [normFolder])

/-- Every entry the folder normalizer emits has valid folder shape. -/
theorem normFolder_wf (j out : Json) (h : normFolder j = some out) :
    isWFFolder out = true := by
  cases j with
  | obj fields =>
    cases hfid : pyToInt (pyGetD fields "folder_id" Json.null) with
    | some fid =>
      cases hch : pyGetD fields "chats" (Json.arr []) with
      | arr chatItems =>
        have hout : out = mkFolderObj fid
            (pyStrip (pyStr (pyGetD fields "folder_title" (Json.str ""))))
            (normChats chatItems ∅) := by
          have := h
          simp only [normFolder, hfid, hch] at this
          exact (Option.some.injEq _ _ ▸ this).symm
        rw [hout]
        show (normChats chatItems ∅).all isWFChat = true
        rw [List.all_eq_true]
        intro c hc
        obtain ⟨cid, ty, s, rfl⟩ := normChats_shape chatItems ∅ c hc
        rfl
      | null => simp only [normFolder, hfid, hch] at h; exact Option.noConfusion h
      | bool b => simp only [normFolder, hfid, hch] at h; exact Option.noConfusion h
      | num n => simp only [normFolder, hfid, hch] at h; exact Option.noConfusion h
      | str s => simp only [normFolder, hfid, hch] at h; exact Option.noConfusion h
      | obj g => simp only [normFolder, hfid, hch] at h; exact Option.noConfusion h
    | none => simp only [normFolder, hfid] at h; exact Option.noConfusion h
  | null => exact absurd h (by simp [normFolder])
  | bool b => exact absurd h (by simp [normFolder])
  | num n => exact absurd h (by simp [normFolder])
  | str s => exact absurd h (by simp [normFolder])
  | arr l => exact absurd h (by simp [normFolder])

/-- A `filterMap` over elements it maps to themselves is the identity. -/
theorem filterMap_id_of {α : Type} (f : α → Option α) :
    ∀ (l : List α), (∀ x ∈ l, f x = some x) → l.filterMap f = l := by
  intro l
  induction l with
  | nil => intro _; rfl
  | cons x t ih =>
    intro h
    rw [List.filterMap_cons, h x (by simp), ih (fun y hy => h y (by simp [hy]))]

/-- The normalizer only succeeds on an object whose `categorized` value is a
list, and then returns the filtered rebuild. -/
theorem normalize_ok_shape (j d : Json) (h : normalize_groups_data j = Except.ok d) :
    ∃ fields items, j = Json.obj fields
      ∧ pyGetD fields "categorized" Json.null = Json.arr items
      ∧ d = Json.obj [("categorized", Json.arr (items.filterMap normFolder))] := by
  cases j with
  | obj fields =>
    cases hcat : pyGetD fields "categorized" Json.null with
    | arr items =>
      refine ⟨fields, items, rfl, hcat, ?_⟩
      simp only [normalize_groups_data, hcat] at h
      injection h with h2
      exact h2.symm
    | null => simp only [normalize_groups_data, hcat] at h; exact Except.noConfusion h
    | bool b => simp only [normalize_groups_data, hcat] at h; exact Except.noConfusion h
    | num n => simp only [normalize_groups_data, hcat] at h; exact Except.noConfusion h
    | str s => simp only [normalize_groups_data, hcat] at h; exact Except.noConfusion h
    | obj g => simp only [normalize_groups_data, hcat] at h; exact Except.noConfusion h
  | null => exact absurd h (by simp [normalize_groups_data])
  | bool b => exact absurd h (by simp [normalize_groups_data])
  | num n => exact absurd h (by simp [normalize_groups_data])
  | str s => exact absurd h (by simp [normalize_groups_data])
  | arr l => exact absurd h (by simp [normalize_groups_data])

/-- Whatever the normalizer returns is a well-formed draft. -/
theorem normalize_wf (j d : Json) (h : normalize_groups_data j = Except.ok d) :
    isWFDraft d = true := by
  obtain ⟨fields, items, rfl, hcat, rfl⟩ := normalize_ok_shape _ _ h
  show (items.filterMap normFolder).all isWFFolder = true
  rw [List.all_eq_true]
  intro out hout
  obtain ⟨x, _, hx⟩ := List.mem_filterMap.mp hout
  exact normFolder_wf x out hx

/-- The entries the folder normalizer emits: canonical folder objects over a
chat-normalizer output. -/
theorem normFolder_shape (j out : Json) (h : normFolder j = some out) :
    ∃ fid t chatItems, out = mkFolderObj fid t (normChats chatItems ∅) := by
  cases j with
  | obj fields =>
    cases hfid : pyToInt (pyGetD fields "folder_id" Json.null) with
    | some fid =>
      cases hch : pyGetD fields "chats" (Json.arr []) with
      | arr chatItems =>
        refine ⟨fid, pyStrip (pyStr (pyGetD fields "folder_title" (Json.str ""))),
          chatItems, ?_⟩
        simp only [normFolder, hfid, hch] at h
        exact (Option.some.injEq _ _ ▸ h).symm
      | null => simp only [normFolder, hfid, hch] at h; exact Option.noConfusion h
      | bool b => simp only [normFolder, hfid, hch] at h; exact Option.noConfusion h
      | num n => simp only [normFolder, hfid, hch] at h; exact Option.noConfusion h
      | str s => simp only [normFolder, hfid, hch] at h; exact Option.noConfusion h
      | obj g => simp only [normFolder, hfid, hch] at h; exact Option.noConfusion h
    | none => simp only [normFolder, hfid] at h; exact Option.noConfusion h
  | null => exact absurd h (by simp [normFolder])
  | bool b => exact absurd h (by simp [normFolder])
  | num n => exact absurd h (by simp [normFolder])
  | str s => exact absurd h (by simp [normFolder])
  | arr l => exact absurd h (by simp [normFolder])

/-- Every reason string of a normalized draft is a `_truncate(…, 200)`
output. -/
theorem draftReasons_normalize (j d : Json) (h : normalize_groups_data j = Except.ok d) :
    ∀ r ∈ draftReasons d, ∃ s, r = pyTruncate s 200 := by
  obtain ⟨fields, items, rfl, hcat, rfl⟩ := normalize_ok_shape _ _ h
  intro r hr
  have hdr : draftReasons (Json.obj [("categorized",
      Json.arr (items.filterMap normFolder))])
      = (items.filterMap normFolder).flatMap folderReasons := rfl
  rw [hdr] at hr
  obtain ⟨out, hout, hrout⟩ := List.mem_flatMap.mp hr
  obtain ⟨x, _, hx⟩ := List.mem_filterMap.mp hout
  obtain ⟨fid, t, chatItems, rfl⟩ := normFolder_shape x out hx
  have hfr : folderReasons (mkFolderObj fid t (normChats chatItems ∅))
      = (normChats chatItems ∅).flatMap chatReasons := rfl
  rw [hfr] at hrout
  obtain ⟨c, hc, hrc⟩ := List.mem_flatMap.mp hrout
  obtain ⟨cid, ty, s, rfl⟩ := normChats_shape chatItems ∅ c hc
  have hcr : chatReasons (mkChatObj cid ty (pyTruncate s 200)) = [pyTruncate s 200] := rfl
  rw [hcr] at hrc
  rcases List.mem_singleton.mp hrc with rfl
  exact ⟨s, rfl⟩

/-! ### The claims -/

/-- Claim C2: `validate_reference_integrity` returns an empty sequence iff
the draft is fully consistent (all folder ids known, all chat ids known, no
chat id in more than one chat-assignment position), and when violations
exist all of them are reported: the number of messages equals the number of
unknown-folder entries plus the number of unknown-chat occurrences plus the
number of duplicate occurrences (occurrences minus distinct ids). -/
theorem C2_validate_references_iff_consistent (d : Draft) (validF validC : Finset Int) :
    (validate_reference_integrity d validF validC = [] ↔
      ((∀ f ∈ d.categorized, f.folder_id ∈ validF) ∧ (∀ a ∈ allChatIds d, a ∈ validC)
        ∧ (allChatIds d).Nodup))
    ∧ (validate_reference_integrity d validF validC).length + (allChatIds d).toFinset.card
      = d.categorized.countP (fun f => decide (f.folder_id ∉ validF))
        + (allChatIds d).countP (fun a => decide (a ∉ validC)) + (allChatIds d).length := by
  constructor
  · unfold validate_reference_integrity
    rw [vriFolders_nil_iff]
    unfold allChatIds
    simp only [Finset.not_mem_empty, not_false_eq_true, implies_true, and_true]
  · unfold validate_reference_integrity
    have := vriFolders_len validF validC d.categorized 0 ∅
    rw [Finset.sdiff_empty] at this
    exact this

/-- Claim C1: after merging any batch results with any folder-title lookup,
no `chat_id` appears twice anywhere in the output (in particular in no two
`FolderAssignment`s), and the output holds exactly the first occurrence (in
batch/folder processing order) of each chat assignment — every later
occurrence of an already-assigned chat id is skipped. -/
theorem C1_merge_first_batch_wins (results : List Draft) (lookup : Int → Option String) :
    (allChatIds (merge_categorization_results results lookup)).Nodup
    ∧ (∀ p, p ∈ pairsFA (merge_categorization_results results lookup).categorized ↔
        p ∈ dedupFirstAux pairKey ∅ (pairsFA (results.flatMap (fun r => r.categorized)))) := by
  obtain ⟨o1, o2, o3, o4, o5⟩ := merge_folders_fold lookup
    (results.flatMap (fun r => r.categorized)) ⟨[], ∅⟩
    (by simp [chatIdsFA]) (by simp [chatIdsFA]) (by simp)
  constructor
  · exact o2
  · intro p
    have h := o4 p
    show p ∈ pairsFA ((results.flatMap (fun r => r.categorized)).foldl
      (mergeFolderStep lookup) ⟨[], ∅⟩).folders ↔ _
    rw [h]
    simp [pairsFA]

/-- Claim C10: the merger's output buckets are exactly the input folder ids in
first-appearance order — a bucket is created on first sight of its id and
kept even when all of its chats are skipped as duplicates, so merged drafts
can contain folder assignments with an empty chat list (shown by the concrete
second conjunct, where folder 2's only chat is a duplicate). -/
theorem C10_merge_bucket_creation (results : List Draft) (lookup : Int → Option String) :
    ((merge_categorization_results results lookup).categorized.map (fun f => f.folder_id)
      = dedupFirstAux (fun x => x) ∅
          ((results.flatMap (fun r => r.categorized)).map (fun f => f.folder_id)))
    ∧ (merge_categorization_results
        [⟨[⟨1, "A", [⟨10, "GROUP", "r1"⟩]⟩, ⟨2, "B", [⟨10, "GROUP", "r2"⟩]⟩]⟩]
        (fun _ => none)
      = ⟨[⟨1, "A", [⟨10, "GROUP", "r1"⟩]⟩, ⟨2, "B", []⟩]⟩) := by
  constructor
  · obtain ⟨o1, o2, o3, o4, o5⟩ := merge_folders_fold lookup
      (results.flatMap (fun r => r.categorized)) ⟨[], ∅⟩
      (by simp [chatIdsFA]) (by simp [chatIdsFA]) (by simp)
    show ((results.flatMap (fun r => r.categorized)).foldl
      (mergeFolderStep lookup) ⟨[], ∅⟩).folders.map (fun f => f.folder_id) = _
    rw [o5]
    show [] ++ dedupFirstAux (fun x => x) (([] : List Int).toFinset) _ = _
    rw [List.nil_append]
    rfl
  · decide

/-- Claim C4: re-normalizing a normalizer output is a no-op, and the output
contains only entries of valid shape even when the input mixed valid and
invalid entries. -/
theorem C4_normalize_idempotent (j d : Json) (h : normalize_groups_data j = Except.ok d) :
    normalize_groups_data d = Except.ok d ∧ isWFDraft d = true := by
  obtain ⟨fields, items, rfl, hcat, rfl⟩ := normalize_ok_shape _ _ h
  constructor
  · have hres : (items.filterMap normFolder).filterMap normFolder
        = items.filterMap normFolder := by
      apply filterMap_id_of
      intro out hout
      obtain ⟨x, _, hx⟩ := List.mem_filterMap.mp hout
      exact normFolder_renorm x out hx
    show Except.ok (Json.obj [("categorized",
      Json.arr ((items.filterMap normFolder).filterMap normFolder))]) = _
    rw [hres]
  · exact normalize_wf _ _ h

/-- Witness for C4: a `categorized` array mixing one well-formed folder (with
a well-formed chat, a non-object chat, a chat with a null id and a duplicate
chat), a non-object folder, a folder whose id does not coerce and a folder
with no chats; the normalizer keeps only the valid parts and is then a
fixed point. -/
theorem C4_normalize_idempotent_witness :
    normalize_groups_data (Json.obj [("categorized", Json.arr [
        Json.obj [("folder_id", Json.num 1), ("folder_title", Json.str " Tech "),
          ("chats", Json.arr [
            Json.obj [("chat_id", Json.num 10), ("type", Json.str "GROUP"),
              ("reason", Json.str "ok")],
            Json.str "garbage",
            Json.obj [("chat_id", Json.null)],
            Json.obj [("chat_id", Json.num 10), ("type", Json.str "dup")]])],
        Json.str "badfolder",
        Json.obj [("folder_id", Json.str "xx")],
        Json.obj [("folder_id", Json.num 2)]])])
      = Except.ok (Json.obj [("categorized", Json.arr [
          Json.obj [("folder_id", Json.num 1), ("folder_title", Json.str "Tech"),
            ("chats", Json.arr [
              Json.obj [("chat_id", Json.num 10), ("type", Json.str "GROUP"),
                ("reason", Json.str "ok")]])],
          Json.obj [("folder_id", Json.num 2), ("folder_title", Json.str ""),
            ("chats", Json.arr [])]])])
    ∧ (normalize_groups_data (Json.obj [("categorized", Json.arr [
          Json.obj [("folder_id", Json.num 1), ("folder_title", Json.str "Tech"),
            ("chats", Json.arr [
              Json.obj [("chat_id", Json.num 10), ("type", Json.str "GROUP"),
                ("reason", Json.str "ok")]])],
          Json.obj [("folder_id", Json.num 2), ("folder_title", Json.str ""),
            ("chats", Json.arr [])]])])
        = Except.ok (Json.obj [("categorized", Json.arr [
            Json.obj [("folder_id", Json.num 1), ("folder_title", Json.str "Tech"),
              ("chats", Json.arr [
                Json.obj [("chat_id", Json.num 10), ("type", Json.str "GROUP"),
                  ("reason", Json.str "ok")]])],
            Json.obj [("folder_id", Json.num 2), ("folder_title", Json.str ""),
              ("chats", Json.arr [])]])])
      ∧ isWFDraft (Json.obj [("categorized", Json.arr [
          Json.obj [("folder_id", Json.num 1), ("folder_title", Json.str "Tech"),
            ("chats", Json.arr [
              Json.obj [("chat_id", Json.num 10), ("type", Json.str "GROUP"),
                ("reason", Json.str "ok")]])],
          Json.obj [("folder_id", Json.num 2), ("folder_title", Json.str ""),
            ("chats", Json.arr [])]])]) = true) :=
  ⟨rfl, C4_normalize_idempotent (Json.obj [("categorized", Json.arr [
      Json.obj [("folder_id", Json.num 1), ("folder_title", Json.str " Tech "),
        ("chats", Json.arr [
          Json.obj [("chat_id", Json.num 10), ("type", Json.str "GROUP"),
            ("reason", Json.str "ok")],
          Json.str "garbage",
          Json.obj [("chat_id", Json.null)],
          Json.obj [("chat_id", Json.num 10), ("type", Json.str "dup")]])],
      Json.str "badfolder",
      Json.obj [("folder_id", Json.str "xx")],
      Json.obj [("folder_id", Json.num 2)]])]) _ rfl⟩

/-- Claim C5 (amended): every reason string of a normalizer output has length
at most 203 — a reason longer than 200 characters is cut to its first 200
characters with `"..."` appended, so the bound is 203, not the claimed
200. -/
theorem C5_reason_length_bound (j d : Json) (h : normalize_groups_data j = Except.ok d) :
    ((draftReasons d).all (fun r => decide (r.length ≤ 203))) = true := by
  rw [List.all_eq_true]
  intro r hr
  obtain ⟨s, rfl⟩ := draftReasons_normalize j d h r hr
  have := pyTruncate_length s 200
  simp only [decide_eq_true_eq]
  omega

set_option maxRecDepth 8192 in
/-- Counterexample to C5 as stated: a 201-character reason is normalized to a
203-character reason (its first 200 characters plus `"..."`), which exceeds
the claimed 200-character bound. -/
theorem C5_counterexample_201_char_reason :
    normalize_groups_data (Json.obj [("categorized", Json.arr [
        Json.obj [("folder_id", Json.num 1), ("chats", Json.arr [
          Json.obj [("chat_id", Json.num 1),
            ("reason", Json.str ⟨List.replicate 201 'a'⟩)]])]])])
      = Except.ok (Json.obj [("categorized", Json.arr [
          Json.obj [("folder_id", Json.num 1), ("folder_title", Json.str ""),
            ("chats", Json.arr [
              Json.obj [("chat_id", Json.num 1), ("type", Json.str "UNKNOWN"),
                ("reason", Json.str ((⟨List.replicate 200 'a'⟩ : String) ++ "..."))]])]])])
    ∧ ((draftReasons (Json.obj [("categorized", Json.arr [
          Json.obj [("folder_id", Json.num 1), ("folder_title", Json.str ""),
            ("chats", Json.arr [
              Json.obj [("chat_id", Json.num 1), ("type", Json.str "UNKNOWN"),
                ("reason", Json.str ((⟨List.replicate 200 'a'⟩ : String)
                  ++ "..."))]])]])])).all
        (fun r => decide (r.length ≤ 200))) = false := by
  constructor
  · rfl
  · decide

set_option maxRecDepth 8192 in
/-- Witness for C5 (amended) at the same concrete input: the 203-character
truncated reason satisfies the corrected bound. -/
theorem C5_reason_length_bound_witness :
    normalize_groups_data (Json.obj [("categorized", Json.arr [
        Json.obj [("folder_id", Json.num 1), ("chats", Json.arr [
          Json.obj [("chat_id", Json.num 1),
            ("reason", Json.str ⟨List.replicate 201 'a'⟩)]])]])])
      = Except.ok (Json.obj [("categorized", Json.arr [
          Json.obj [("folder_id", Json.num 1), ("folder_title", Json.str ""),
            ("chats", Json.arr [
              Json.obj [("chat_id", Json.num 1), ("type", Json.str "UNKNOWN"),
                ("reason", Json.str ((⟨List.replicate 200 'a'⟩ : String) ++ "..."))]])]])])
    ∧ ((draftReasons (Json.obj [("categorized", Json.arr [
          Json.obj [("folder_id", Json.num 1), ("folder_title", Json.str ""),
            ("chats", Json.arr [
              Json.obj [("chat_id", Json.num 1), ("type", Json.str "UNKNOWN"),
                ("reason", Json.str ((⟨List.replicate 200 'a'⟩ : String)
                  ++ "..."))]])]])])).all
        (fun r => decide (r.length ≤ 203))) = true :=
  ⟨rfl, C5_reason_length_bound (Json.obj [("categorized", Json.arr [
      Json.obj [("folder_id", Json.num 1), ("chats", Json.arr [
        Json.obj [("chat_id", Json.num 1),
          ("reason", Json.str ⟨List.replicate 201 'a'⟩)]])]])]) _ rfl⟩

/-- Claim C6: the normalizer fails exactly when the top-level value is not an
object or its `categorized` value is not an array (a missing field counts:
`dict.get` yields `None` there); on every other input it succeeds with a
well-formed draft. -/
theorem C6_normalize_error_iff (j : Json) :
    ((∃ msg, normalize_groups_data j = Except.error msg) ↔
      ¬ ∃ fields items, j = Json.obj fields
          ∧ pyGetD fields "categorized" Json.null = Json.arr items)
    ∧ (∀ d, normalize_groups_data j = Except.ok d → isWFDraft d = true) := by
  constructor
  · constructor
    · rintro ⟨msg, hmsg⟩ ⟨fields, items, rfl, hcat⟩
      simp only [normalize_groups_data, hcat] at hmsg
      exact Except.noConfusion hmsg
    · intro hno
      cases j with
      | obj fields =>
        cases hcat : pyGetD fields "categorized" Json.null with
        | arr items => exact absurd ⟨fields, items, rfl, hcat⟩ hno
        | null => exact ⟨"分类结果缺少 categorized 数组", by simp [normalize_groups_data, hcat]⟩
        | bool b => exact ⟨"分类结果缺少 categorized 数组", by simp [normalize_groups_data, hcat]⟩
        | num n => exact ⟨"分类结果缺少 categorized 数组", by simp [normalize_groups_data, hcat]⟩
        | str s => exact ⟨"分类结果缺少 categorized 数组", by simp [normalize_groups_data, hcat]⟩
        | obj g => exact ⟨"分类结果缺少 categorized 数组", by simp [normalize_groups_data, hcat]⟩
      | null => exact ⟨"分类结果必须是 JSON 对象", rfl⟩
      | bool b => exact ⟨"分类结果必须是 JSON 对象", rfl⟩
      | num n => exact ⟨"分类结果必须是 JSON 对象", rfl⟩
      | str s => exact ⟨"分类结果必须是 JSON 对象", rfl⟩
      | arr l => exact ⟨"分类结果必须是 JSON 对象", rfl⟩
  · intro d h
    exact normalize_wf j d h

/-- Witness for C6's success side: a `categorized` array holding only a
non-object entry still normalizes, to a well-formed empty draft. -/
theorem C6_normalize_error_iff_witness :
    normalize_groups_data (Json.obj [("categorized", Json.arr [Json.str "junk"])])
      = Except.ok (Json.obj [("categorized", Json.arr [])])
    ∧ isWFDraft (Json.obj [("categorized", Json.arr [])]) = true :=
  ⟨rfl, (C6_normalize_error_iff (Json.obj [("categorized",
    Json.arr [Json.str "junk"])])).2 (Json.obj [("categorized", Json.arr [])]) rfl⟩

/-- Claim C7: for every `chat_id`, the validator emits exactly one
duplicate-occurrence message per occurrence beyond the first (`k`
occurrences yield `k - 1` messages, also for repeats inside a single
folder assignment). -/
theorem C7_duplicate_occurrence_messages (d : Draft) (validF validC : Finset Int) (cid : Int) :
    (validate_reference_integrity d validF validC).count (vriDupMsg cid)
      = (allChatIds d).count cid - 1 := by
  unfold validate_reference_integrity allChatIds
  have := vriFolders_dupcount validF validC cid d.categorized 0 ∅
  rw [this]
  simp

/-- Claim C8: `compute_unassigned_chats` returns exactly the source chats
whose id occurs in no folder assignment of the draft, in source order; in
particular for chats `{1,2,3}` and a draft assigning only chat 1 it returns
chats 2 and 3 in that order. -/
theorem C8_compute_unassigned (chats : List Chat) (d : Draft) :
    (compute_unassigned_chats chats d
      = chats.filter (fun c =>
          decide (∀ f ∈ d.categorized, ∀ a ∈ f.chats, a.chat_id ≠ c.chat_id)))
    ∧ compute_unassigned_chats
        [⟨1, "one", "GROUP", "u1"⟩, ⟨2, "two", "GROUP", "u2"⟩, ⟨3, "three", "GROUP", "u3"⟩]
        ⟨[⟨7, "Tech", [⟨1, "GROUP", "r"⟩]⟩]⟩
      = [⟨2, "two", "GROUP", "u2"⟩, ⟨3, "three", "GROUP", "u3"⟩] := by
  constructor
  · unfold compute_unassigned_chats
    apply List.filter_congr
    intro c _
    rw [decide_eq_decide]
    constructor
    · intro h f hf a ha hx
      apply h
      rw [unassigned_fold_mem]
      right
      rw [mem_chatIdsFA]
      exact ⟨f, hf, a, ha, hx⟩
    · intro h hmem
      rw [unassigned_fold_mem] at hmem
      rcases hmem with hmem | hmem
      · exact absurd hmem (Finset.not_mem_empty _)
      · rw [mem_chatIdsFA] at hmem
        obtain ⟨f, hf, a, ha, hx⟩ := hmem
        exact h f hf a ha hx
  · decide

/-- Claim C9: `add_chat_assignment` only touches the targeted bucket: with no
matching bucket the draft gains one fresh bucket at the end; with a first
matching bucket, that bucket gains exactly the one new entry at the end of
its chats and every other bucket (before and after) is unchanged. -/
theorem C9_add_chat_assignment_frame (d : Draft) (fid : Int) (title : String)
    (chat : Chat) (reason : String) :
    ((∀ f ∈ d.categorized, f.folder_id ≠ fid) →
      (add_chat_assignment d fid title chat reason).categorized
        = d.categorized ++ [⟨fid, title, [⟨chat.chat_id, chat.type, reason⟩]⟩])
    ∧ (∀ p f s, d.categorized = p ++ f :: s → (∀ g ∈ p, g.folder_id ≠ fid) →
        f.folder_id = fid →
        (add_chat_assignment d fid title chat reason).categorized
          = p ++ ⟨f.folder_id, f.folder_title,
              f.chats ++ [⟨chat.chat_id, chat.type, reason⟩]⟩ :: s) := by
  constructor
  · intro hno
    exact appendChat_no_match fid title ⟨chat.chat_id, chat.type, reason⟩ d.categorized hno
  · intro p f s hsplit hp hf
    show appendChat d.categorized fid title ⟨chat.chat_id, chat.type, reason⟩ = _
    rw [hsplit]
    exact appendChat_first_match fid title ⟨chat.chat_id, chat.type, reason⟩ f s hf p hp

/-- Witness for C9 at concrete inputs: once with no matching bucket, once
with a matching bucket sitting between two others. -/
theorem C9_add_chat_assignment_frame_witness :
    ((add_chat_assignment ⟨[⟨1, "A", []⟩]⟩ 2 "B" ⟨5, "Five", "GROUP", "u"⟩ "why").categorized
      = [⟨1, "A", []⟩, ⟨2, "B", [⟨5, "GROUP", "why"⟩]⟩])
    ∧ ((add_chat_assignment ⟨[⟨1, "A", []⟩, ⟨2, "B", [⟨4, "BOT", "r0"⟩]⟩, ⟨3, "C", []⟩]⟩
        2 "ignored" ⟨5, "Five", "GROUP", "u"⟩ "why").categorized
      = [⟨1, "A", []⟩, ⟨2, "B", [⟨4, "BOT", "r0"⟩, ⟨5, "GROUP", "why"⟩]⟩, ⟨3, "C", []⟩]) := by
  constructor
  · simpa using (C9_add_chat_assignment_frame ⟨[⟨1, "A", []⟩]⟩ 2 "B"
      ⟨5, "Five", "GROUP", "u"⟩ "why").1 (by decide)
  · simpa using (C9_add_chat_assignment_frame
      ⟨[⟨1, "A", []⟩, ⟨2, "B", [⟨4, "BOT", "r0"⟩]⟩, ⟨3, "C", []⟩]⟩ 2 "ignored"
      ⟨5, "Five", "GROUP", "u"⟩ "why").2
      [⟨1, "A", []⟩] ⟨2, "B", [⟨4, "BOT", "r0"⟩]⟩ [⟨3, "C", []⟩] rfl (by decide) rfl

/-! ### The CSV bridge: characterization lemmas -/

theorem idPairsFA_cons (f : FolderAssignment) (fs : List FolderAssignment) :
    idPairsFA (f :: fs) = f.chats.map (fun c => (f.folder_id, c.chat_id)) ++ idPairsFA fs := by
  simp [idPairsFA]

theorem idPairsFA_append (l1 l2 : List FolderAssignment) :
    idPairsFA (l1 ++ l2) = idPairsFA l1 ++ idPairsFA l2 := by
  simp [idPairsFA]

theorem idPairsFA_eq_pairs_map (fs : List FolderAssignment) :
    idPairsFA fs = (pairsFA fs).map (fun p => (p.1, p.2.chat_id)) := by
  induction fs with
  | nil => rfl
  | cons f fs ih =>
    rw [idPairsFA_cons, pairsFA_cons, List.map_append, ih, List.map_map]
    rfl

theorem folderLookup_mem (folders : List Folder) (a : Int)
    (h : a ∈ folders.map (fun g => g.id)) : ∃ t, folderLookup folders a = some t := by
  obtain ⟨g, hg, hid⟩ := List.mem_map.mp h
  have hsome : (folders.reverse.find? (fun f => f.id == a)).isSome = true := by
    rw [List.find?_isSome]
    exact ⟨g, List.mem_reverse.mpr hg, by simp [hid]⟩
  obtain ⟨f0, hf0⟩ := Option.isSome_iff_exists.mp hsome
  exact ⟨f0.title, by unfold folderLookup; rw [hf0]; rfl⟩

theorem chatLookup_mem (chats : List Chat) (a : Int)
    (h : a ∈ chats.map (fun c => c.chat_id)) : ∃ ch, chatLookup chats a = some ch := by
  obtain ⟨c, hc, hid⟩ := List.mem_map.mp h
  have hsome : (chats.reverse.find? (fun c => c.chat_id == a)).isSome = true := by
    rw [List.find?_isSome]
    exact ⟨c, List.mem_reverse.mpr hc, by simp [hid]⟩
  obtain ⟨c0, hc0⟩ := Option.isSome_iff_exists.mp hsome
  exact ⟨c0, hc0⟩

/-- `appendChat` into a present bucket adds exactly the one pair. -/
theorem appendChat_pairs_perm (fid : Int) (t : String) (c : ChatAssignment) :
    ∀ (fs : List FolderAssignment), fid ∈ fs.map (fun f => f.folder_id) →
    (pairsFA (appendChat fs fid t c)).Perm ((fid, c) :: pairsFA fs) := by
  intro fs
  induction fs with
  | nil => intro h; exact absurd h (by simp)
  | cons g gs ih =>
    intro hmem
    by_cases hg : g.folder_id = fid
    · simp only [appendChat, if_pos hg]
      rw [pairsFA_cons, pairsFA_cons]
      simp only [List.map_append, List.map_cons, List.map_nil]
      rw [hg]
      have hsplit : (g.chats.map (fun x => (fid, x)) ++ [(fid, c)]) ++ pairsFA gs
          = g.chats.map (fun x => (fid, x)) ++ (fid, c) :: pairsFA gs := by
        rw [List.append_assoc]
        rfl
      show ((g.chats.map (fun x => (fid, x)) ++ [(fid, c)]) ++ pairsFA gs).Perm _
      rw [hsplit]
      exact List.perm_middle
    · have hmem2 : fid ∈ gs.map (fun f => f.folder_id) := by
        rw [List.map_cons] at hmem
        rcases List.mem_cons.mp hmem with h | h
        · exact absurd h.symm hg
        · exact h
      simp only [appendChat, if_neg hg]
      rw [pairsFA_cons, pairsFA_cons]
      have h1 : (g.chats.map (fun x => (g.folder_id, x))
            ++ pairsFA (appendChat gs fid t c)).Perm
          (g.chats.map (fun x => (g.folder_id, x)) ++ (fid, c) :: pairsFA gs) :=
        List.Perm.append_left _ (ih hmem2)
      exact h1.trans List.perm_middle

theorem appendChat_ids_mem (fid : Int) (t : String) (c : ChatAssignment) :
    ∀ (fs : List FolderAssignment), fid ∈ fs.map (fun f => f.folder_id) →
    (appendChat fs fid t c).map (fun f => f.folder_id) = fs.map (fun f => f.folder_id) := by
  intro fs
  induction fs with
  | nil => intro h; exact absurd h (by simp)
  | cons g gs ih =>
    intro hmem
    by_cases hg : g.folder_id = fid
    · simp only [appendChat, if_pos hg]
      rfl
    · have hmem2 : fid ∈ gs.map (fun f => f.folder_id) := by
        rw [List.map_cons] at hmem
        rcases List.mem_cons.mp hmem with h | h
        · exact absurd h.symm hg
        · exact h
      simp only [appendChat, if_neg hg, List.map_cons]
      rw [ih hmem2]

/-- One good export row steps the rebuild state by exactly one appended
entry. -/
theorem rebuildStep_exportRow (flk : Int → Option String) (clk : Int → Option Chat)
    (lookup : Int → Option Chat) (f : FolderAssignment) (c : ChatAssignment)
    (st : List FolderAssignment × Finset Int)
    (hT : ∃ t, flk f.folder_id = some t) (hC : ∃ ch, clk c.chat_id = some ch)
    (hns : c.chat_id ∉ st.2) :
    ∃ t2 ty rs, rebuildStep flk clk st (exportRow lookup f c)
      = (appendChat st.1 f.folder_id t2 ⟨c.chat_id, ty, rs⟩, insert c.chat_id st.2) := by
  obtain ⟨t, ht⟩ := hT
  obtain ⟨ch, hch⟩ := hC
  refine ⟨t, if pyStrip (exportRow lookup f c).chat_type = "" then ch.type
    else pyStrip (exportRow lookup f c).chat_type,
    if pyStrip (exportRow lookup f c).reason = "" then "CSV审核归类"
    else pyStrip (exportRow lookup f c).reason, ?_⟩
  unfold rebuildStep
  have hstatus : ¬ (pyLower (pyStrip (exportRow lookup f c).status) ≠ "categorized") := by
    show ¬ (pyLower (pyStrip "categorized") ≠ "categorized")
    rw [pyStatus_categorized]
    simp
  rw [if_neg hstatus]
  have hfid : parsePyInt (pyStrip (exportRow lookup f c).folder_id) = some f.folder_id := by
    show parsePyInt (pyStrip (pyIntStr f.folder_id)) = some f.folder_id
    rw [pyStrip_pyIntStr, parsePyInt_pyIntStr]
  have hcid : parsePyInt (pyStrip (exportRow lookup f c).chat_id) = some c.chat_id := by
    show parsePyInt (pyStrip (pyIntStr c.chat_id)) = some c.chat_id
    rw [pyStrip_pyIntStr, parsePyInt_pyIntStr]
  rw [hfid, hcid]
  simp only [ht, hch]
  rw [if_neg hns]

/-- The rebuild fold over the export rows of one folder's chats: all rows are
consumed, each appending its pair; a bucket for the folder appears exactly
when the folder has chats and no bucket with its id existed. -/
theorem rebuild_chats_fold (flk : Int → Option String) (clk lookup : Int → Option Chat)
    (f : FolderAssignment) :
    ∀ (cs : List ChatAssignment) (st : List FolderAssignment × Finset Int),
    (∃ t, flk f.folder_id = some t) →
    (∀ a ∈ cs.map (fun c => c.chat_id), ∃ ch, clk a = some ch) →
    (cs.map (fun c => c.chat_id)).Nodup →
    (∀ a ∈ cs.map (fun c => c.chat_id), a ∉ st.2) →
    ((cs.map (exportRow lookup f)).foldl (rebuildStep flk clk) st).2
        = st.2 ∪ (cs.map (fun c => c.chat_id)).toFinset
    ∧ (∀ q, q ∈ idPairsFA ((cs.map (exportRow lookup f)).foldl (rebuildStep flk clk) st).1 ↔
        (q ∈ idPairsFA st.1 ∨ q ∈ cs.map (fun c => (f.folder_id, c.chat_id))))
    ∧ ((cs.map (exportRow lookup f)).foldl (rebuildStep flk clk) st).1.map
          (fun g => g.folder_id)
        = st.1.map (fun g => g.folder_id)
          ++ (if cs = [] ∨ f.folder_id ∈ st.1.map (fun g => g.folder_id)
              then ([] : List Int) else [f.folder_id]) := by
  intro cs
  induction cs with
  | nil =>
    intro st hT hgc hnd hdisj
    refine ⟨by simp, fun q => by simp, ?_⟩
    rw [if_pos (Or.inl rfl)]
    simp
  | cons c cs ih =>
    intro st hT hgc hnd hdisj
    obtain ⟨t2, ty, rs, hstep⟩ := rebuildStep_exportRow flk clk lookup f c st hT
      (hgc c.chat_id (by simp)) (hdisj c.chat_id (by simp))
    simp only [List.map_cons, List.foldl_cons, hstep]
    have hgc2 : ∀ a ∈ cs.map (fun c => c.chat_id), ∃ ch, clk a = some ch :=
      fun a ha => hgc a (by simp [List.mem_map] at ha ⊢; tauto)
    rw [List.map_cons, List.nodup_cons] at hnd
    have hdisj2 : ∀ a ∈ cs.map (fun c => c.chat_id),
        a ∉ (insert c.chat_id st.2 : Finset Int) := by
      intro a ha hins
      rcases Finset.mem_insert.mp hins with h | h
      · exact hnd.1 (h ▸ ha)
      · exact hdisj a (by simp [List.mem_map] at ha ⊢; tauto) h
    by_cases hfmem : f.folder_id ∈ st.1.map (fun g => g.folder_id)
    · have hids1 : (appendChat st.1 f.folder_id t2 ⟨c.chat_id, ty, rs⟩).map
          (fun g => g.folder_id) = st.1.map (fun g => g.folder_id) :=
        appendChat_ids_mem f.folder_id t2 ⟨c.chat_id, ty, rs⟩ st.1 hfmem
      have hpairs : ∀ q, q ∈ idPairsFA (appendChat st.1 f.folder_id t2
          ⟨c.chat_id, ty, rs⟩) ↔ (q = (f.folder_id, c.chat_id) ∨ q ∈ idPairsFA st.1) := by
        intro q
        have hperm := (appendChat_pairs_perm f.folder_id t2 ⟨c.chat_id, ty, rs⟩ st.1
          hfmem).map (fun p => (p.1, p.2.chat_id))
        rw [idPairsFA_eq_pairs_map, idPairsFA_eq_pairs_map]
        rw [hperm.mem_iff]
        simp only [List.map_cons, List.mem_cons]
      obtain ⟨o1, o2, o3⟩ := ih (appendChat st.1 f.folder_id t2 ⟨c.chat_id, ty, rs⟩,
        insert c.chat_id st.2) hT hgc2 hnd.2 hdisj2
      refine ⟨?_, ?_, ?_⟩
      · rw [o1]
        show insert c.chat_id st.2 ∪ _ = _
        ext a
        simp only [Finset.mem_union, Finset.mem_insert, List.mem_toFinset, List.map_cons,
          List.mem_cons]
        tauto
      · intro q
        rw [o2 q]
        show _ ↔ (_ ∨ q ∈ (f.folder_id, c.chat_id) :: cs.map (fun c => (f.folder_id, c.chat_id)))
        rw [hpairs q, List.mem_cons]
        tauto
      · rw [o3]
        show (appendChat st.1 f.folder_id t2 ⟨c.chat_id, ty, rs⟩).map (fun g => g.folder_id)
          ++ _ = _
        rw [hids1, if_pos (Or.inr hfmem), if_pos (Or.inr hfmem)]
    · have hnm : ∀ g ∈ st.1, g.folder_id ≠ f.folder_id := by
        intro g hg he
        exact hfmem (List.mem_map.mpr ⟨g, hg, he⟩)
      have happ : appendChat st.1 f.folder_id t2 ⟨c.chat_id, ty, rs⟩
          = st.1 ++ [⟨f.folder_id, t2, [⟨c.chat_id, ty, rs⟩]⟩] :=
        appendChat_no_match f.folder_id t2 ⟨c.chat_id, ty, rs⟩ st.1 hnm
      have hids1 : (appendChat st.1 f.folder_id t2 ⟨c.chat_id, ty, rs⟩).map
          (fun g => g.folder_id) = st.1.map (fun g => g.folder_id) ++ [f.folder_id] := by
        rw [happ, List.map_append]
        rfl
      have hpairs : ∀ q, q ∈ idPairsFA (appendChat st.1 f.folder_id t2
          ⟨c.chat_id, ty, rs⟩) ↔ (q = (f.folder_id, c.chat_id) ∨ q ∈ idPairsFA st.1) := by
        intro q
        rw [happ, idPairsFA_append]
        show q ∈ idPairsFA st.1 ++ [(f.folder_id, c.chat_id)] ↔ _
        rw [List.mem_append, List.mem_singleton]
        tauto
      obtain ⟨o1, o2, o3⟩ := ih (appendChat st.1 f.folder_id t2 ⟨c.chat_id, ty, rs⟩,
        insert c.chat_id st.2) hT hgc2 hnd.2 hdisj2
      refine ⟨?_, ?_, ?_⟩
      · rw [o1]
        show insert c.chat_id st.2 ∪ _ = _
        ext a
        simp only [Finset.mem_union, Finset.mem_insert, List.mem_toFinset, List.map_cons,
          List.mem_cons]
        tauto
      · intro q
        rw [o2 q]
        show _ ↔ (_ ∨ q ∈ (f.folder_id, c.chat_id) :: cs.map (fun c => (f.folder_id, c.chat_id)))
        rw [hpairs q, List.mem_cons]
        tauto
      · rw [o3]
        show (appendChat st.1 f.folder_id t2 ⟨c.chat_id, ty, rs⟩).map (fun g => g.folder_id)
          ++ _ = _
        rw [hids1]
        have hcond1 : (cs = [] ∨ f.folder_id ∈ st.1.map (fun g => g.folder_id)
              ++ [f.folder_id]) := Or.inr (List.mem_append_right _ (by simp))
        rw [if_pos hcond1]
        have hcond2 : ¬ ((c :: cs) = [] ∨ f.folder_id ∈ st.1.map (fun g => g.folder_id)) := by
          rintro (h | h)
          · exact List.cons_ne_nil c cs h
          · exact hfmem h
        rw [if_neg hcond2]
        rw [List.append_nil]

/-- The rebuild fold over all categorized export rows. -/
theorem rebuild_folders_fold (flk : Int → Option String) (clk lookup : Int → Option Chat) :
    ∀ (fas : List FolderAssignment) (st : List FolderAssignment × Finset Int),
    (∀ f ∈ fas, ∃ t, flk f.folder_id = some t) →
    (∀ a ∈ chatIdsFA fas, ∃ ch, clk a = some ch) →
    (chatIdsFA fas).Nodup →
    (∀ a ∈ chatIdsFA fas, a ∉ st.2) →
    ((exportCategorizedRows lookup fas).foldl (rebuildStep flk clk) st).2
        = st.2 ∪ (chatIdsFA fas).toFinset
    ∧ (∀ q, q ∈ idPairsFA ((exportCategorizedRows lookup fas).foldl
          (rebuildStep flk clk) st).1
        ↔ (q ∈ idPairsFA st.1 ∨ q ∈ idPairsFA fas))
    ∧ ((exportCategorizedRows lookup fas).foldl (rebuildStep flk clk) st).1.map
          (fun g => g.folder_id)
        = st.1.map (fun g => g.folder_id)
          ++ dedupFirstAux (fun x => x) ((st.1.map (fun g => g.folder_id)).toFinset)
              ((fas.filter (fun f => !f.chats.isEmpty)).map (fun f => f.folder_id)) := by
  intro fas
  induction fas with
  | nil =>
    intro st hgf hgc hnd hdisj
    refine ⟨by simp [exportCategorizedRows, chatIdsFA], ?_, ?_⟩
    · intro q
      simp [exportCategorizedRows, idPairsFA]
    · simp [exportCategorizedRows, dedupFirstAux]
  | cons f fas ih =>
    intro st hgf hgc hnd hdisj
    have hrows : exportCategorizedRows lookup (f :: fas)
        = f.chats.map (exportRow lookup f) ++ exportCategorizedRows lookup fas := by
      simp [exportCategorizedRows]
    rw [hrows, List.foldl_append]
    rw [chatIdsFA_cons] at hnd hdisj hgc
    rw [List.nodup_append] at hnd
    obtain ⟨i1, i2, i3⟩ := rebuild_chats_fold flk clk lookup f f.chats st
      (hgf f (by simp))
      (fun a ha => hgc a (List.mem_append_left _ ha))
      hnd.1
      (fun a ha => hdisj a (List.mem_append_left _ ha))
    have hdisj2 : ∀ a ∈ chatIdsFA fas,
        a ∉ ((f.chats.map (exportRow lookup f)).foldl (rebuildStep flk clk) st).2 := by
      intro a ha
      rw [i1]
      intro hu
      rcases Finset.mem_union.mp hu with h | h
      · exact hdisj a (List.mem_append_right _ ha) h
      · exact hnd.2.2 (List.mem_toFinset.mp h) ha
    obtain ⟨o1, o2, o3⟩ := ih _ (fun g hg => hgf g (by simp [hg]))
      (fun a ha => hgc a (List.mem_append_right _ ha)) hnd.2.1 hdisj2
    refine ⟨?_, ?_, ?_⟩
    · rw [o1, i1]
      rw [chatIdsFA_cons]
      ext a
      simp only [Finset.mem_union, List.mem_toFinset, List.mem_append]
      tauto
    · intro q
      rw [o2 q, i2 q, idPairsFA_cons, List.mem_append]
      tauto
    · rw [o3, i3]
      by_cases hempty : f.chats = []
      · have hfalse : (!f.chats.isEmpty) = false := by
          rw [hempty]
          rfl
        rw [List.filter_cons, hfalse]
        rw [if_pos (Or.inl hempty), List.append_nil]
        simp only [Bool.false_eq_true, if_false]
      · have htrue : (!f.chats.isEmpty) = true := by
          cases hcs : f.chats with
          | nil => exact absurd hcs hempty
          | cons x xs => rfl
        rw [List.filter_cons, htrue]
        simp only [if_true]
        rw [List.map_cons]
        by_cases hfmem : f.folder_id ∈ st.1.map (fun g => g.folder_id)
        · rw [if_pos (Or.inr hfmem), List.append_nil]
          rw [dfa_cons_of_mem (fun x => x)
            ((fas.filter (fun f => !f.chats.isEmpty)).map (fun f => f.folder_id))
            (show (fun (x : Int) => x) f.folder_id
                ∈ (st.1.map (fun g => g.folder_id)).toFinset from
              List.mem_toFinset.mpr hfmem)]
        · rw [if_neg (fun h => h.elim hempty hfmem)]
          rw [dfa_cons_of_not_mem (fun x => x)
            ((fas.filter (fun f => !f.chats.isEmpty)).map (fun f => f.folder_id))
            (show (fun (x : Int) => x) f.folder_id
                ∉ (st.1.map (fun g => g.folder_id)).toFinset from
              fun hx => hfmem (List.mem_toFinset.mp hx))]
          rw [toFinset_append_singleton, List.append_assoc]
          rfl

/-- Claim C3: exporting an already-valid, fully-assigned draft to review rows
and rebuilding from those rows preserves the folder-to-chats mapping at the
id level (same set of `(folder_id, chat_id)` pairs), with the rebuilt buckets
in first-appearance order of the original's nonempty buckets (an empty bucket
exports no row, so only nonempty buckets can reappear). -/
theorem C3_csv_round_trip (d : Draft) (folders : List Folder) (chats : List Chat)
    (hF : ∀ f ∈ d.categorized, f.folder_id ∈ folders.map (fun g => g.id))
    (hC : ∀ a ∈ allChatIds d, a ∈ chats.map (fun c => c.chat_id))
    (hNd : (allChatIds d).Nodup)
    (hFull : ∀ c ∈ chats, c.chat_id ∈ allChatIds d) :
    (draftIdPairs (build_categorization_from_review_csv
        (export_classification_review_csv d chats) folders chats)).toFinset
      = (draftIdPairs d).toFinset
    ∧ (build_categorization_from_review_csv
        (export_classification_review_csv d chats) folders chats).categorized.map
          (fun f => f.folder_id)
      = dedupFirstAux (fun x => x) ∅
          ((d.categorized.filter (fun f => !f.chats.isEmpty)).map
            (fun f => f.folder_id)) := by
  have hfilter : chats.filter (fun c => c.chat_id ∉ (allChatIds d).toFinset) = [] := by
    rw [List.filter_eq_nil_iff]
    intro c hc
    simp only [decide_eq_true_eq, Decidable.not_not]
    exact List.mem_toFinset.mpr (hFull c hc)
  have hexp : export_classification_review_csv d chats
      = exportCategorizedRows (chatLookup chats) d.categorized := by
    show exportCategorizedRows (chatLookup chats) d.categorized
        ++ (chats.filter (fun c => c.chat_id ∉ (allChatIds d).toFinset)).map _
      = _
    rw [hfilter]
    simp
  rw [hexp]
  obtain ⟨o1, o2, o3⟩ := rebuild_folders_fold (folderLookup folders) (chatLookup chats)
    (chatLookup chats) d.categorized ([], ∅)
    (fun f hf => folderLookup_mem folders f.folder_id (hF f hf))
    (fun a ha => chatLookup_mem chats a (hC a ha))
    hNd
    (fun a _ => Finset.not_mem_empty a)
  constructor
  · ext q
    rw [List.mem_toFinset, List.mem_toFinset]
    show q ∈ idPairsFA ((exportCategorizedRows (chatLookup chats) d.categorized).foldl
      (rebuildStep (folderLookup folders) (chatLookup chats)) ([], ∅)).1 ↔ _
    rw [o2 q]
    show (q ∈ idPairsFA [] ∨ _) ↔ _
    simp only [idPairsFA, List.flatMap_nil, List.not_mem_nil, false_or]
    exact Iff.rfl
  · show ((exportCategorizedRows (chatLookup chats) d.categorized).foldl
      (rebuildStep (folderLookup folders) (chatLookup chats)) ([], ∅)).1.map
        (fun f => f.folder_id) = _
    rw [o3]
    show ([] : List Int) ++ _ = _
    rw [List.nil_append]
    rfl

/-- Witness for C3 at the concrete draft of the specification's test vector:
one folder `1 = "Tech"` holding chat `10`, a matching snapshot and folder
list. -/
theorem C3_csv_round_trip_witness :
    (draftIdPairs (build_categorization_from_review_csv
        (export_classification_review_csv ⟨[⟨1, "Tech", [⟨10, "GROUP", "x"⟩]⟩]⟩
          [⟨10, "ChatTen", "GROUP", "u10"⟩])
        [⟨1, "Tech"⟩] [⟨10, "ChatTen", "GROUP", "u10"⟩])).toFinset
      = (draftIdPairs (⟨[⟨1, "Tech", [⟨10, "GROUP", "x"⟩]⟩]⟩ : Draft)).toFinset
    ∧ (build_categorization_from_review_csv
        (export_classification_review_csv ⟨[⟨1, "Tech", [⟨10, "GROUP", "x"⟩]⟩]⟩
          [⟨10, "ChatTen", "GROUP", "u10"⟩])
        [⟨1, "Tech"⟩] [⟨10, "ChatTen", "GROUP", "u10"⟩]).categorized.map
          (fun f => f.folder_id)
      = dedupFirstAux (fun x => x) ∅
          ((((⟨[⟨1, "Tech", [⟨10, "GROUP", "x"⟩]⟩]⟩ : Draft)).categorized.filter
            (fun f => !f.chats.isEmpty)).map (fun f => f.folder_id)) :=
  C3_csv_round_trip ⟨[⟨1, "Tech", [⟨10, "GROUP", "x"⟩]⟩]⟩ [⟨1, "Tech"⟩]
    [⟨10, "ChatTen", "GROUP", "u10"⟩] (by decide) (by decide) (by decide) (by decide)

end Organizer
